import Mathlib

/-!
Verification development for the bf2x transpiler (bf2x.py).

The pipeline transforms raw text through:
  raw text → `sanitize` → operator string → `fold_runs` → token sequence
  → `desugar` → desugared token sequence → one of seven emitters.

Tokens are pairs of an operator string and a repeat count, mirroring the
Python tuples `(op, n)` where `op` is a one-character string drawn from
"><+-.,[]" or the three-character string "CLR" introduced by the desugarer.
-/

/-- A token is an (operator, count) pair, exactly as the Python tuples. -/
abbrev Token := String × Nat

/-- The eight operator characters, from `BF_OPS = set("><+-.,[]")`. -/
def BF_OPS : List Char := "><+-.,[]".toList

/-- Normalizer, from `sanitize`: keep exactly the characters in `BF_OPS`,
preserving order (`"".join(c for c in src if c in BF_OPS)`). -/
def sanitize (src : String) : String :=
  String.mk (src.toList.filter (fun c => BF_OPS.contains c))

/-- The four run-length-foldable operators, from the test `c in "+-<>"`. -/
def runnable (c : Char) : Bool := "+-<>".toList.contains c

/-- Run-length folder, from `fold_runs`: a maximal run of an identical
operator in "+-<>" becomes one token carrying the run length; every other
character becomes a token with count 1.  The Python index pair `(i, j)`
scanning the run corresponds to `takeWhile`/`dropWhile` on the remainder. -/
def foldRunsAux : List Char → List Token
  | [] => []
  | c :: rest =>
    if runnable c then
      (String.mk [c], (rest.takeWhile (fun d => d == c)).length + 1)
        :: foldRunsAux (rest.dropWhile (fun d => d == c))
    else
      (String.mk [c], 1) :: foldRunsAux rest
termination_by l => l.length
decreasing_by
  · simp only [List.length_cons]
    exact Nat.lt_succ_of_le ((List.dropWhile_sublist _).length_le)
  · simp

/-- Run-length folder on a string, `fold_runs(ops)`. -/
def fold_runs (ops : String) : List Token := foldRunsAux ops.toList

/-- The exact three-token window tested by the desugarer:
`tokens[i] == ('[',1) and tokens[i+1] == ('-',1) and tokens[i+2] == (']',1)`. -/
def isTriple (a b c : Token) : Bool :=
  a == ("[", 1) && b == ("-", 1) && c == ("]", 1)

/-- Peephole desugarer, from `desugar`: one left-to-right non-overlapping
pass; the exact triple ('[',1)('-',1)(']',1) becomes ('CLR',1) and the scan
advances past all three, otherwise one token is copied.  When fewer than
three tokens remain (`i + 2 < len(tokens)` fails) tokens are copied one by
one, i.e. the remainder is returned unchanged. -/
def desugar : List Token → List Token
  | a :: b :: c :: rest =>
    if isTriple a b c then ("CLR", 1) :: desugar rest
    else a :: desugar (b :: c :: rest)
  | l => l

/-- Decimal rendering of a count, as Python's `str(n)` interpolated into
the emitted line (`f"dp += {n}"` and friends). -/
def natStr (n : Nat) : String :=
  if h : n < 10 then String.mk [Char.ofNat (48 + n)]
  else natStr (n / 10) ++ String.mk [Char.ofNat (48 + n % 10)]
termination_by n
decreasing_by
  exact Nat.div_lt_self (Nat.lt_of_lt_of_le (by norm_num) (Nat.le_of_not_lt h)) (by norm_num)

/-- Indentation prefix `'    ' * ind` used by every emitter. -/
def indent (ind : Nat) : String := String.mk (List.replicate (4 * ind) ' ')

/-- The flag `has_in = any(op == ',' for op, _ in tokens)`, shared by the Go, C++,
C#, Lua, Ruby and Rust emitters. -/
def hasIn (tokens : List Token) : Bool := tokens.any (fun t => t.1 == ",")

/-- Body lines of `emit_python`.  The nesting depth `ind` is an integer in
the source clamped by `max(0, ind - 1)`, which over `Nat` is `ind - 1`;
a loop-end emits no line in the Python backend (dedent only). -/
def pythonBody : List Token → Nat → List String
  | [], _ => []
  | (op, n) :: rest, ind =>
    if op == ">" then (indent ind ++ "dp += " ++ natStr n) :: pythonBody rest ind
    else if op == "<" then (indent ind ++ "dp -= " ++ natStr n) :: pythonBody rest ind
    else if op == "+" then
      (indent ind ++ "tape[dp] = (tape[dp] + " ++ natStr n ++ ") & 255") :: pythonBody rest ind
    else if op == "-" then
      (indent ind ++ "tape[dp] = (tape[dp] - " ++ natStr n ++ ") & 255") :: pythonBody rest ind
    else if op == "." then
      (if n == 1 then indent ind ++ "out.append(tape[dp])"
       else indent ind ++ "for _ in range(" ++ natStr n ++ "): out.append(tape[dp])")
        :: pythonBody rest ind
    else if op == "," then
      (if n == 1 then indent ind ++ "tape[dp] = getchar()"
       else indent ind ++ "for _ in range(" ++ natStr n ++ "): tape[dp] = getchar()")
        :: pythonBody rest ind
    else if op == "CLR" then (indent ind ++ "tape[dp] = 0") :: pythonBody rest ind
    else if op == "[" then (indent ind ++ "while tape[dp] != 0:") :: pythonBody rest (ind + 1)
    else if op == "]" then pythonBody rest (ind - 1)
    else pythonBody rest ind

/-- All lines of `emit_python(tokens)` before joining with newlines. -/
def emit_python_lines (tokens : List Token) : List String :=
  ["import sys", "tape = bytearray(300000)", "dp = 0", "out = []", "",
   "def getchar():", "    b = sys.stdin.buffer.read(1)", "    return b[0] if b else 0", ""]
  ++ pythonBody tokens 0
  ++ ["sys.stdout.buffer.write(bytes(out))", ""]

/-- Joined text of `emit_python(tokens)`: the complete generated Python program. -/
def emit_python (tokens : List Token) : String :=
  String.intercalate "\n" (emit_python_lines tokens)

/-- Body lines of `emit_go`.  Loop-end clamps `ind` via `max(1, ind - 1)`
and then always emits a closing brace at the clamped indent. -/
def goBody (has_in : Bool) : List Token → Nat → List String
  | [], _ => []
  | (op, n) :: rest, ind =>
    if op == ">" then (indent ind ++ "dp += " ++ natStr n) :: goBody has_in rest ind
    else if op == "<" then (indent ind ++ "dp -= " ++ natStr n) :: goBody has_in rest ind
    else if op == "+" then
      (indent ind ++ "tape[dp] = byte(int(tape[dp]+byte(" ++ natStr n ++ ")) & 255)")
        :: goBody has_in rest ind
    else if op == "-" then
      (indent ind ++ "tape[dp] = byte(int(tape[dp]-byte(" ++ natStr n ++ ")) & 255)")
        :: goBody has_in rest ind
    else if op == "." then
      (if n == 1 then indent ind ++ "out.WriteByte(tape[dp])"
       else indent ind ++ "for i:=0; i<" ++ natStr n ++ "; i++ \x7b out.WriteByte(tape[dp]) \x7d")
        :: goBody has_in rest ind
    else if op == "," && has_in then
      (if n == 1 then indent ind ++ "tape[dp] = getchar()"
       else indent ind ++ "for i:=0; i<" ++ natStr n ++ "; i++ \x7b tape[dp] = getchar() \x7d")
        :: goBody has_in rest ind
    else if op == "CLR" then (indent ind ++ "tape[dp] = 0") :: goBody has_in rest ind
    else if op == "[" then
      (indent ind ++ "for tape[dp] != 0 \x7b") :: goBody has_in rest (ind + 1)
    else if op == "]" then
      (indent (max 1 (ind - 1)) ++ "\x7d") :: goBody has_in rest (max 1 (ind - 1))
    else goBody has_in rest ind

/-- All lines of `emit_go(tokens)` before joining with newlines. -/
def emit_go_lines (tokens : List Token) : List String :=
  let has_in := hasIn tokens
  ["package main", "", "import (", "    \"bufio\""]
  ++ (if has_in then ["    \"io\""] else [])
  ++ ["    \"os\"", ")", "", "func main()\x7b",
      "    tape := make([]byte, 300000)", "    dp := 0",
      "    out := bufio.NewWriter(os.Stdout)", "    defer out.Flush()"]
  ++ (if has_in then
      ["    in := bufio.NewReader(os.Stdin)",
       "    getchar := func() byte \x7b",
       "        b, err := in.ReadByte()",
       "        if err != nil \x7b if err == io.EOF \x7b return 0 \x7d; return 0 \x7d",
       "        return b",
       "    \x7d"] else [])
  ++ goBody has_in tokens 1
  ++ ["\x7d", ""]

/-- Joined text of `emit_go(tokens)`: the complete generated Go program. -/
def emit_go (tokens : List Token) : String :=
  String.intercalate "\n" (emit_go_lines tokens)

/-- Body lines of `emit_cpp`; the trailing `return 0;` is emitted through
the same indenting helper at the final nesting depth. -/
def cppBody (has_in : Bool) : List Token → Nat → List String
  | [], ind => [indent ind ++ "return 0;"]
  | (op, n) :: rest, ind =>
    if op == ">" then (indent ind ++ "dp += " ++ natStr n ++ ";") :: cppBody has_in rest ind
    else if op == "<" then (indent ind ++ "dp -= " ++ natStr n ++ ";") :: cppBody has_in rest ind
    else if op == "+" then
      (indent ind ++ "tape[dp] = (tape[dp] + " ++ natStr n ++ ") & 255;") :: cppBody has_in rest ind
    else if op == "-" then
      (indent ind ++ "tape[dp] = (tape[dp] - " ++ natStr n ++ ") & 255;") :: cppBody has_in rest ind
    else if op == "." then
      (if n == 1 then indent ind ++ "std::cout.put((char)tape[dp]);"
       else indent ind ++ "for(int i=0;i<" ++ natStr n ++ ";++i) std::cout.put((char)tape[dp]);")
        :: cppBody has_in rest ind
    else if op == "," && has_in then
      (if n == 1 then indent ind ++ "int c = std::cin.get(); tape[dp] = (c==EOF?0:(unsigned char)c);"
       else indent ind ++ "for(int i=0;i<" ++ natStr n
            ++ ";++i)\x7b int c=std::cin.get(); tape[dp]=(c==EOF?0:(unsigned char)c); \x7d")
        :: cppBody has_in rest ind
    else if op == "CLR" then (indent ind ++ "tape[dp] = 0;") :: cppBody has_in rest ind
    else if op == "[" then
      (indent ind ++ "while(tape[dp] != 0)\x7b") :: cppBody has_in rest (ind + 1)
    else if op == "]" then
      (indent (max 1 (ind - 1)) ++ "\x7d") :: cppBody has_in rest (max 1 (ind - 1))
    else cppBody has_in rest ind

/-- All lines of `emit_cpp(tokens)` before joining with newlines. -/
def emit_cpp_lines (tokens : List Token) : List String :=
  let has_in := hasIn tokens
  ["#include <iostream>", "int main()\x7b",
   "    static unsigned char tape[300000] = \x7b0\x7d;",
   "    size_t dp = 0;",
   "    std::ios::sync_with_stdio(false); std::cin.tie(nullptr);"]
  ++ cppBody has_in tokens 1
  ++ ["\x7d", ""]

/-- Joined text of `emit_cpp(tokens)`: the complete generated C++ program. -/
def emit_cpp (tokens : List Token) : String :=
  String.intercalate "\n" (emit_cpp_lines tokens)

/-- Body lines of `emit_csharp`. -/
def csBody (has_in : Bool) : List Token → Nat → List String
  | [], _ => []
  | (op, n) :: rest, ind =>
    if op == ">" then (indent ind ++ "dp += " ++ natStr n ++ ";") :: csBody has_in rest ind
    else if op == "<" then (indent ind ++ "dp -= " ++ natStr n ++ ";") :: csBody has_in rest ind
    else if op == "+" then
      (indent ind ++ "tape[dp] = (byte)((tape[dp] + " ++ natStr n ++ ") & 255);")
        :: csBody has_in rest ind
    else if op == "-" then
      (indent ind ++ "tape[dp] = (byte)((tape[dp] - " ++ natStr n ++ ") & 255);")
        :: csBody has_in rest ind
    else if op == "." then
      (if n == 1 then indent ind ++ "stdout.WriteByte(tape[dp]);"
       else indent ind ++ "for (int i=0;i<" ++ natStr n ++ ";i++) stdout.WriteByte(tape[dp]);")
        :: csBody has_in rest ind
    else if op == "," && has_in then
      (if n == 1 then indent ind ++ "int c = input.ReadByte(); tape[dp] = (byte)(c==-1?0:c);"
       else indent ind ++ "for (int i=0;i<" ++ natStr n
            ++ ";i++) \x7b int c = input.ReadByte(); tape[dp] = (byte)(c==-1?0:c); \x7d")
        :: csBody has_in rest ind
    else if op == "CLR" then (indent ind ++ "tape[dp] = 0;") :: csBody has_in rest ind
    else if op == "[" then
      (indent ind ++ "while (tape[dp] != 0) \x7b") :: csBody has_in rest (ind + 1)
    else if op == "]" then
      (indent (max 1 (ind - 1)) ++ "\x7d") :: csBody has_in rest (max 1 (ind - 1))
    else csBody has_in rest ind

/-- All lines of `emit_csharp(tokens)` before joining with newlines. -/
def emit_csharp_lines (tokens : List Token) : List String :=
  let has_in := hasIn tokens
  ["using System;", "using System.IO;", "class Program \x7b static void Main()\x7b",
   "    byte[] tape = new byte[300000]; int dp = 0;"]
  ++ (if has_in then ["    Stream input = Console.OpenStandardInput();"] else [])
  ++ ["    var stdout = Console.OpenStandardOutput();"]
  ++ csBody has_in tokens 1
  ++ ["\x7d\x7d", ""]

/-- Joined text of `emit_csharp(tokens)`: the complete generated C# program. -/
def emit_csharp (tokens : List Token) : String :=
  String.intercalate "\n" (emit_csharp_lines tokens)

/-- Body lines of `emit_lua`; the loop-end floor is 0 and an `end` line is
always emitted at the clamped indent. -/
def luaBody : List Token → Nat → List String
  | [], _ => []
  | (op, n) :: rest, ind =>
    if op == ">" then (indent ind ++ "dp = dp + " ++ natStr n) :: luaBody rest ind
    else if op == "<" then (indent ind ++ "dp = dp - " ++ natStr n) :: luaBody rest ind
    else if op == "+" then
      (indent ind ++ "tape[dp] = (tape[dp] + " ++ natStr n ++ ") % 256") :: luaBody rest ind
    else if op == "-" then
      (indent ind ++ "tape[dp] = (tape[dp] - " ++ natStr n ++ ") % 256") :: luaBody rest ind
    else if op == "." then
      (if n == 1 then indent ind ++ "io.write(string.char(tape[dp]))"
       else indent ind ++ "for i=1," ++ natStr n ++ " do io.write(string.char(tape[dp])) end")
        :: luaBody rest ind
    else if op == "," then
      (if n == 1 then indent ind ++ "tape[dp] = getchar()"
       else indent ind ++ "for i=1," ++ natStr n ++ " do tape[dp] = getchar() end")
        :: luaBody rest ind
    else if op == "CLR" then (indent ind ++ "tape[dp] = 0") :: luaBody rest ind
    else if op == "[" then (indent ind ++ "while tape[dp] ~= 0 do") :: luaBody rest (ind + 1)
    else if op == "]" then (indent (ind - 1) ++ "end") :: luaBody rest (ind - 1)
    else luaBody rest ind

/-- All lines of `emit_lua(tokens)` before joining with newlines. -/
def emit_lua_lines (tokens : List Token) : List String :=
  let has_in := hasIn tokens
  ["local tape = \x7b\x7d for i=1,300000 do tape[i]=0 end", "local dp = 1"]
  ++ [if has_in then
        "local function getchar() local c=io.read(1); if c==nil then return 0 else return string.byte(c) end end"
      else "local function getchar() return 0 end"]
  ++ luaBody tokens 0
  ++ [""]

/-- Joined text of `emit_lua(tokens)`: the complete generated Lua program. -/
def emit_lua (tokens : List Token) : String :=
  String.intercalate "\n" (emit_lua_lines tokens)

/-- Body lines of `emit_ruby`; floor 0, an `end` line is always emitted. -/
def rubyBody : List Token → Nat → List String
  | [], _ => []
  | (op, n) :: rest, ind =>
    if op == ">" then (indent ind ++ "dp += " ++ natStr n) :: rubyBody rest ind
    else if op == "<" then (indent ind ++ "dp -= " ++ natStr n) :: rubyBody rest ind
    else if op == "+" then
      (indent ind ++ "tape[dp] = (tape[dp] + " ++ natStr n ++ ") & 0xFF") :: rubyBody rest ind
    else if op == "-" then
      (indent ind ++ "tape[dp] = (tape[dp] - " ++ natStr n ++ ") & 0xFF") :: rubyBody rest ind
    else if op == "." then
      (if n == 1 then indent ind ++ "STDOUT.write(tape[dp].chr)"
       else indent ind ++ natStr n ++ ".times \x7b STDOUT.write(tape[dp].chr) \x7d")
        :: rubyBody rest ind
    else if op == "," then
      (if n == 1 then indent ind ++ "tape[dp] = getchar"
       else indent ind ++ natStr n ++ ".times \x7b tape[dp] = getchar \x7d")
        :: rubyBody rest ind
    else if op == "CLR" then (indent ind ++ "tape[dp] = 0") :: rubyBody rest ind
    else if op == "[" then (indent ind ++ "while tape[dp] != 0") :: rubyBody rest (ind + 1)
    else if op == "]" then (indent (ind - 1) ++ "end") :: rubyBody rest (ind - 1)
    else rubyBody rest ind

/-- All lines of `emit_ruby(tokens)` before joining with newlines. -/
def emit_ruby_lines (tokens : List Token) : List String :=
  let has_in := hasIn tokens
  ["tape = Array.new(300000, 0)", "dp = 0"]
  ++ [if has_in then "def getchar; c=$stdin.read(1); c ? c.ord : 0; end"
      else "def getchar; 0; end"]
  ++ rubyBody tokens 0
  ++ [""]

/-- Joined text of `emit_ruby(tokens)`: the complete generated Ruby program. -/
def emit_ruby (tokens : List Token) : String :=
  String.intercalate "\n" (emit_ruby_lines tokens)

/-- Body lines of `emit_rust`; the trailing flush is emitted through the
indenting helper at the final nesting depth. -/
def rustBody (has_in : Bool) : List Token → Nat → List String
  | [], ind => [indent ind ++ "out.flush().unwrap();"]
  | (op, n) :: rest, ind =>
    if op == ">" then (indent ind ++ "dp += " ++ natStr n ++ ";") :: rustBody has_in rest ind
    else if op == "<" then (indent ind ++ "dp -= " ++ natStr n ++ ";") :: rustBody has_in rest ind
    else if op == "+" then
      (indent ind ++ "tape[dp] = tape[dp].wrapping_add(" ++ natStr n ++ ");")
        :: rustBody has_in rest ind
    else if op == "-" then
      (indent ind ++ "tape[dp] = tape[dp].wrapping_sub(" ++ natStr n ++ ");")
        :: rustBody has_in rest ind
    else if op == "." then
      (if n == 1 then indent ind ++ "out.write_all(&[tape[dp]]).unwrap();"
       else indent ind ++ "for _ in 0.." ++ natStr n ++ " \x7b out.write_all(&[tape[dp]]).unwrap(); \x7d")
        :: rustBody has_in rest ind
    else if op == "," && has_in then
      (if n == 1 then indent ind ++ "tape[dp] = getchar();"
       else indent ind ++ "for _ in 0.." ++ natStr n ++ " \x7b tape[dp] = getchar(); \x7d")
        :: rustBody has_in rest ind
    else if op == "CLR" then (indent ind ++ "tape[dp] = 0;") :: rustBody has_in rest ind
    else if op == "[" then
      (indent ind ++ "while tape[dp] != 0 \x7b") :: rustBody has_in rest (ind + 1)
    else if op == "]" then
      (indent (max 1 (ind - 1)) ++ "\x7d") :: rustBody has_in rest (max 1 (ind - 1))
    else rustBody has_in rest ind

/-- All lines of `emit_rust(tokens)` before joining with newlines. -/
def emit_rust_lines (tokens : List Token) : List String :=
  let has_in := hasIn tokens
  ["use std::io::\x7bself, Read, Write\x7d;", "fn main()\x7b",
   "    let mut tape = [0u8; 300000];",
   "    let mut dp: usize = 0;",
   "    let mut out = io::BufWriter::new(io::stdout());"]
  ++ (if has_in then
      ["    let mut stdin = io::stdin();",
       "    let mut buf = [0u8; 1];",
       "    let mut getchar = || -> u8 \x7b match stdin.read(&mut buf) \x7b Ok(1) => buf[0], _ => 0 \x7d \x7d;"]
      else [])
  ++ rustBody has_in tokens 1
  ++ ["\x7d", ""]

/-- Joined text of `emit_rust(tokens)`: the complete generated Rust program. -/
def emit_rust (tokens : List Token) : String :=
  String.intercalate "\n" (emit_rust_lines tokens)

/-!
Execution semantics of the generated programs.

Every generated program is a straight transcription of the token sequence:
a 300,000-cell zero tape, a data pointer, `while cell != 0` loops, and
per-token statements.  For a balanced token sequence the program's control
structure is captured by the instruction tree below, and each target's
per-statement arithmetic and input behaviour is captured by a `Sem` record
transcribed from that emitter's statement text.  Pointer arithmetic has no
bounds check in any target, so the tape is modelled as a total map from
integers to cell values.
-/

/-- Machine state of a generated program: tape, data pointer, remaining
input byte stream, output byte stream. -/
structure St where
  tape : Int → Nat
  dp : Int
  inp : List Nat
  out : List Nat

/-- Store a value in the current cell. -/
def writeCell (s : St) (v : Nat) : St :=
  { s with tape := fun i => if i = s.dp then v else s.tape i }

/-- Value denoted by the byte-sized count literal in the generated Go and
Rust programs.  The Go emitter interpolates the count into the constant
conversion `byte({n})`, which the Go compiler accepts only when the
constant is representable in `byte` (otherwise "constant overflows byte",
a compile-time error); the Rust emitter interpolates it as the `u8`
argument of `wrapping_add`/`wrapping_sub`, and a literal above 255 is
rejected by the deny-by-default `overflowing_literals` lint.  `none`
models the rejected program, which has no behaviour. -/
def byteLit (n : Nat) : Option Nat := if n < 256 then some n else none

/-- Per-target cell semantics: the new cell value produced by the emitted
increment and decrement statements (`none` when the emitted statement's
count literal makes the generated program invalid), and the emitted
end-of-stream-to-zero input behaviour. -/
structure Sem where
  inc : Nat → Nat → Option Nat
  dec : Nat → Nat → Option Nat
  getchar : List Nat → Nat × List Nat

/-- Python backend: `tape[dp] = (tape[dp] + n) & 255` and
`tape[dp] = (tape[dp] - n) & 255` over unbounded Python integers, where
masking a possibly negative integer with 255 is the nonnegative remainder
modulo 256; any count literal is valid; `getchar` returns
`b[0] if b else 0`. -/
def pythonSem : Sem where
  inc c n := some ((c + n) &&& 255)
  dec c n := some ((((c : Int) - (n : Int)) % 256).toNat)
  getchar inp := match inp with | [] => (0, []) | b :: r => (b, r)

/-- Go backend: `tape[dp] = byte(int(tape[dp]+byte(n)) & 255)`; the
constant conversion `byte(n)` denotes the count when it fits in a byte and
otherwise fails to compile (see `byteLit`); byte addition and subtraction
wrap modulo 256, after which the `& 255` mask is the identity; `getchar`
returns the read byte, or 0 on any read error including EOF. -/
def goSem : Sem where
  inc c n := (byteLit n).map (fun b => (c + b) % 256)
  dec c n := (byteLit n).map (fun b => (((c : Int) - (b : Int)) % 256).toNat)
  getchar inp := match inp with | [] => (0, []) | b :: r => (b, r)

/-- C++ backend: `tape[dp] = (tape[dp] + n) & 255` after integer promotion,
with `& 255` on a possibly negative two's-complement integer equal to the
nonnegative remainder modulo 256; input is `std::cin.get()` with
`(c==EOF?0:(unsigned char)c)`. -/
def cppSem : Sem where
  inc c n := some ((c + n) &&& 255)
  dec c n := some ((((c : Int) - (n : Int)) % 256).toNat)
  getchar inp := match inp with | [] => (0, []) | b :: r => (b, r)

/-- C# backend: `tape[dp] = (byte)((tape[dp] + n) & 255)`; input is
`input.ReadByte()` with `(byte)(c==-1?0:c)`. -/
def csharpSem : Sem where
  inc c n := some ((c + n) &&& 255)
  dec c n := some ((((c : Int) - (n : Int)) % 256).toNat)
  getchar inp := match inp with | [] => (0, []) | b :: r => (b, r)

/-- Lua backend: `tape[dp] = (tape[dp] + n) % 256` and
`tape[dp] = (tape[dp] - n) % 256` with Lua's floored (always nonnegative)
remainder; `getchar` returns `string.byte(c)` or 0 when `io.read(1)` is
nil.  The Lua program indexes its tape from 1: its data pointer starts at
1 rather than 0. -/
def luaSem : Sem where
  inc c n := some ((c + n) % 256)
  dec c n := some ((((c : Int) - (n : Int)) % 256).toNat)
  getchar inp := match inp with | [] => (0, []) | b :: r => (b, r)

/-- Ruby backend: `tape[dp] = (tape[dp] + n) & 0xFF` over unbounded Ruby
integers, masking like Python; `getchar` returns `c.ord` or 0 when
`$stdin.read(1)` is nil. -/
def rubySem : Sem where
  inc c n := some ((c + n) &&& 255)
  dec c n := some ((((c : Int) - (n : Int)) % 256).toNat)
  getchar inp := match inp with | [] => (0, []) | b :: r => (b, r)

/-- Rust backend: `tape[dp].wrapping_add(n)` and `wrapping_sub(n)` on `u8`;
the count literal denotes a `u8` only when below 256 and otherwise the
generated program fails to compile (see `byteLit`); the wrapping
operations add and subtract modulo 256; `getchar` returns the read byte,
or 0 when `stdin.read` does not deliver one. -/
def rustSem : Sem where
  inc c n := (byteLit n).map (fun b => (c + b) % 256)
  dec c n := (byteLit n).map (fun b => (((c : Int) - (b : Int)) % 256).toNat)
  getchar inp := match inp with | [] => (0, []) | b :: r => (b, r)

/-- Control structure shared by all seven generated programs: one node per
token of a balanced sequence, with `[` ... `]` turned into a `loop` node. -/
inductive Instr where
  | move : Int → Instr
  | inc : Nat → Instr
  | dec : Nat → Instr
  | output : Nat → Instr
  | input : Nat → Instr
  | clr : Instr
  | loop : List Instr → Instr

/-- Perform the input action `n` times, as every emitter's counted input
loop does, keeping the last byte read. -/
def inpN (sem : Sem) : Nat → St → St
  | 0, s => s
  | m + 1, s =>
    let p := sem.getchar s.inp
    inpN sem m (writeCell { s with inp := p.2 } p.1)

/-- Fuel-indexed execution of an instruction sequence; `none` means the
fuel ran out or an increment/decrement statement's count literal made the
generated program invalid.  A `loop` node is the emitted
`while cell != 0` construct: test, run the body, re-test. -/
def run (sem : Sem) : Nat → List Instr → St → Option St
  | _, [], s => some s
  | 0, _ :: _, _ => none
  | fuel + 1, Instr.move k :: rest, s => run sem fuel rest { s with dp := s.dp + k }
  | fuel + 1, Instr.inc n :: rest, s =>
      match sem.inc (s.tape s.dp) n with
      | none => none
      | some v => run sem fuel rest (writeCell s v)
  | fuel + 1, Instr.dec n :: rest, s =>
      match sem.dec (s.tape s.dp) n with
      | none => none
      | some v => run sem fuel rest (writeCell s v)
  | fuel + 1, Instr.output n :: rest, s =>
      run sem fuel rest { s with out := s.out ++ List.replicate n (s.tape s.dp) }
  | fuel + 1, Instr.input n :: rest, s => run sem fuel rest (inpN sem n s)
  | fuel + 1, Instr.clr :: rest, s => run sem fuel rest (writeCell s 0)
  | fuel + 1, Instr.loop body :: rest, s =>
      if s.tape s.dp ≠ 0 then
        match run sem fuel body s with
        | none => none
        | some s2 => run sem fuel (Instr.loop body :: rest) s2
      else run sem fuel rest s

/-- Translation of one non-loop token into at most one instruction,
mirroring the per-token statement choice of every emitter (tokens whose
operator no emitter recognizes produce nothing). -/
def pushTok (op : String) (n : Nat) (acc : List Instr) : List Instr :=
  if op == ">" then Instr.move (n : Int) :: acc
  else if op == "<" then Instr.move (-(n : Int)) :: acc
  else if op == "+" then Instr.inc n :: acc
  else if op == "-" then Instr.dec n :: acc
  else if op == "." then Instr.output n :: acc
  else if op == "," then Instr.input n :: acc
  else if op == "CLR" then Instr.clr :: acc
  else acc

/-- Stack-based bracket parser: `some` exactly on balanced token sequences,
`none` on an unmatched `[` or `]`. -/
def parseStack : List Token → List (List Instr) → List Instr → Option (List Instr)
  | [], [], acc => some acc.reverse
  | [], _ :: _, _ => none
  | (op, n) :: rest, stk, acc =>
    if op == "[" then parseStack rest (acc :: stk) []
    else if op == "]" then
      match stk with
      | [] => none
      | prev :: stk2 => parseStack rest stk2 (Instr.loop acc.reverse :: prev)
    else parseStack rest stk (pushTok op n acc)

/-- A balanced token sequence parsed into its instruction tree. -/
def parseProg (ts : List Token) : Option (List Instr) := parseStack ts [] []

/-- Initial state of every generated program: all-zero tape, pointer at
`dp0` (0 for all targets except Lua's 1), the given input byte stream, no
output yet. -/
def st0 (dp0 : Int) (inp : List Nat) : St :=
  { tape := fun _ => 0, dp := dp0, inp := inp, out := [] }

/-- Observable behaviour of a target on a program: the output stream after
`fuel` steps from the initial state, or `none` if the fuel ran out. -/
def outsOf (sem : Sem) (fuel : Nat) (prog : List Instr) (dp0 : Int) (inp : List Nat) :
    Option (List Nat) :=
  (run sem fuel prog (st0 dp0 inp)).map St.out

/-- Chained increments of one cell by a list of counts, propagating an
invalid count literal as `none`. -/
def incChain (sem : Sem) (ns : List Nat) (c : Nat) : Option Nat :=
  ns.foldl (fun acc n => acc.bind (fun a => sem.inc a n)) (some c)

mutual
/-- Every increment and decrement count of an instruction fits in a byte,
so the corresponding Go and Rust count literals are valid. -/
def smallCountsI : Instr → Bool
  | Instr.inc n => decide (n < 256)
  | Instr.dec n => decide (n < 256)
  | Instr.loop body => smallCounts body
  | _ => true

/-- Every increment and decrement count of a program fits in a byte. -/
def smallCounts : List Instr → Bool
  | [] => true
  | i :: rest => smallCountsI i && smallCounts rest
end

/-- Translate a state by `k` tape positions: used to relate Lua's 1-based
initial pointer to the 0-based initial pointer of the other targets. -/
def shiftSt (k : Int) (s : St) : St :=
  { tape := fun i => s.tape (i + k), dp := s.dp - k, inp := s.inp, out := s.out }

/-- Index-level transcription of the `desugar` while-loop with every list
access checked: `tokens[i]` etc. return `none` out of bounds, exactly where
the Python code would raise `IndexError`.  The loop guard `i < len(tokens)`
and the window guard `i + 2 < len(tokens)` are the source's tests. -/
def desugarIdx (tokens : List Token) (i : Nat) : Option (List Token) :=
  if i < tokens.length then
    if i + 2 < tokens.length then
      match tokens[i]?, tokens[i + 1]?, tokens[i + 2]? with
      | some t0, some t1, some t2 =>
        if t0 == ("[", 1) && t1 == ("-", 1) && t2 == ("]", 1) then
          (desugarIdx tokens (i + 3)).map (("CLR", 1) :: ·)
        else (desugarIdx tokens (i + 1)).map (t0 :: ·)
      | _, _, _ => none
    else
      match tokens[i]? with
      | some t0 => (desugarIdx tokens (i + 1)).map (t0 :: ·)
      | none => none
  else some []
termination_by tokens.length - i
decreasing_by all_goals omega

/-- The checked desugarer started at index 0, as `desugar(tokens)` runs. -/
def desugarChecked (tokens : List Token) : Option (List Token) := desugarIdx tokens 0

/-- The inner scan `while j < n and ops[j] == c: j += 1` of `fold_runs`;
the access `ops[j]` is guarded by `j < n`, so it is expressed with a
bounds-checked get. -/
def scanRun (ops : List Char) (c : Char) (j : Nat) : Nat :=
  if h : j < ops.length then
    if ops.get ⟨j, h⟩ == c then scanRun ops c (j + 1) else j
  else j
termination_by ops.length - j
decreasing_by omega

/-- The scan `scanRun` never moves backwards. -/
theorem scanRun_ge (ops : List Char) (c : Char) (j : Nat) : j ≤ scanRun ops c j := by
  unfold scanRun
  split
  · split
    · exact Nat.le_trans (Nat.le_succ j) (scanRun_ge ops c (j + 1))
    · exact Nat.le_refl j
  · exact Nat.le_refl j
termination_by ops.length - j
decreasing_by omega

/-- Index-level transcription of the `fold_runs` while-loop with the
access `ops[i]` checked, mirroring the Python indices `i` and `j`. -/
def foldRunsIdx (ops : List Char) (i : Nat) : Option (List Token) :=
  if _h : i < ops.length then
    match ops[i]? with
    | none => none
    | some c =>
      if runnable c then
        (foldRunsIdx ops (scanRun ops c (i + 1))).map
          ((String.mk [c], scanRun ops c (i + 1) - i) :: ·)
      else (foldRunsIdx ops (i + 1)).map ((String.mk [c], 1) :: ·)
  else some []
termination_by ops.length - i
decreasing_by
  · have := scanRun_ge ops c (i + 1); omega
  · omega

/-- The checked folder started at index 0, as `fold_runs(ops)` runs. -/
def foldRunsChecked (ops : String) : Option (List Token) := foldRunsIdx ops.toList 0

/-- Characters kept by the skeleton of an emitted line: everything except
decimal digits and spaces (the only characters that vary with the token
count and the indentation). -/
def keepChar (c : Char) : Bool := !(c.isDigit || c == ' ')

/-- Skeleton of an emitted line: its characters minus digits and spaces. -/
def skeleton (s : String) : List Char := s.toList.filter keepChar

/-- Substring occurrence test on character lists. -/
def hasSub (p : List Char) : List Char → Bool
  | [] => p.isEmpty
  | c :: rest => p.isPrefixOf (c :: rest) || hasSub p rest

/-- Skeletons of every line the Go body can emit for a token whose
operator is not the input operator (count and indentation erased). -/
def goSkels : List (List Char) :=
  [skeleton "dp += 0", skeleton "dp -= 0",
   skeleton "tape[dp] = byte(int(tape[dp]+byte(0)) & 255)",
   skeleton "tape[dp] = byte(int(tape[dp]-byte(0)) & 255)",
   skeleton "out.WriteByte(tape[dp])",
   skeleton "for i:=0; i<0; i++ \x7b out.WriteByte(tape[dp]) \x7d",
   skeleton "tape[dp] = 0",
   skeleton "for tape[dp] != 0 \x7b",
   skeleton "\x7d"]

/-- Skeletons of every non-input Go program line (body plus the fixed
prologue and epilogue emitted when `has_in` is false). -/
def goAllSkels : List (List Char) :=
  goSkels ++
  ["package main", "", "import (", "    \"bufio\"", "    \"os\"", ")",
   "func main()\x7b", "    tape := make([]byte, 300000)", "    dp := 0",
   "    out := bufio.NewWriter(os.Stdout)", "    defer out.Flush()"].map skeleton

/-- Skeletons of every line the C++ body can emit for a non-input token,
including the trailing `return 0;`. -/
def cppSkels : List (List Char) :=
  [skeleton "dp += 0;", skeleton "dp -= 0;",
   skeleton "tape[dp] = (tape[dp] + 0) & 255;",
   skeleton "tape[dp] = (tape[dp] - 0) & 255;",
   skeleton "std::cout.put((char)tape[dp]);",
   skeleton "for(int i=0;i<0;++i) std::cout.put((char)tape[dp]);",
   skeleton "tape[dp] = 0;",
   skeleton "while(tape[dp] != 0)\x7b",
   skeleton "\x7d",
   skeleton "return 0;"]

/-- Skeletons of every non-input C++ program line. -/
def cppAllSkels : List (List Char) :=
  cppSkels ++
  ["#include <iostream>", "int main()\x7b",
   "    static unsigned char tape[300000] = \x7b0\x7d;",
   "    size_t dp = 0;",
   "    std::ios::sync_with_stdio(false); std::cin.tie(nullptr);",
   "\x7d", ""].map skeleton

/-- Skeletons of every line the C# body can emit for a non-input token. -/
def csSkels : List (List Char) :=
  [skeleton "dp += 0;", skeleton "dp -= 0;",
   skeleton "tape[dp] = (byte)((tape[dp] + 0) & 255);",
   skeleton "tape[dp] = (byte)((tape[dp] - 0) & 255);",
   skeleton "stdout.WriteByte(tape[dp]);",
   skeleton "for (int i=0;i<0;i++) stdout.WriteByte(tape[dp]);",
   skeleton "tape[dp] = 0;",
   skeleton "while (tape[dp] != 0) \x7b",
   skeleton "\x7d"]

/-- Skeletons of every non-input C# program line. -/
def csAllSkels : List (List Char) :=
  csSkels ++
  ["using System;", "using System.IO;",
   "class Program \x7b static void Main()\x7b",
   "    byte[] tape = new byte[300000]; int dp = 0;",
   "    var stdout = Console.OpenStandardOutput();",
   "\x7d\x7d", ""].map skeleton

/-- Skeletons of every line the Rust body can emit for a non-input token,
including the trailing flush. -/
def rustSkels : List (List Char) :=
  [skeleton "dp += 0;", skeleton "dp -= 0;",
   skeleton "tape[dp] = tape[dp].wrapping_add(0);",
   skeleton "tape[dp] = tape[dp].wrapping_sub(0);",
   skeleton "out.write_all(&[tape[dp]]).unwrap();",
   skeleton "for _ in 0..0 \x7b out.write_all(&[tape[dp]]).unwrap(); \x7d",
   skeleton "tape[dp] = 0;",
   skeleton "while tape[dp] != 0 \x7b",
   skeleton "\x7d",
   skeleton "out.flush().unwrap();"]

/-- Skeletons of every non-input Rust program line. -/
def rustAllSkels : List (List Char) :=
  rustSkels ++
  ["use std::io::\x7bself, Read, Write\x7d;", "fn main()\x7b",
   "    let mut tape = [0u8; 300000];",
   "    let mut dp: usize = 0;",
   "    let mut out = io::BufWriter::new(io::stdout());",
   "\x7d", ""].map skeleton

/-! Helper lemmas about the front-end. -/

/-- Masking with 255 is reduction modulo 256 (the `& 255` idiom of the
Python, C++, C#, and Ruby emitters, on nonnegative values). -/
theorem land255 (x : Nat) : x &&& 255 = x % 256 := by
  have h := Nat.and_pow_two_sub_one_eq_mod x 8
  norm_num at h
  exact h

/-- A one-character operator string is one of the four run-foldable
operator strings exactly when the character is run-foldable. -/
theorem mk_single_runnable (c : Char) :
    (String.mk [c] = ">" ∨ String.mk [c] = "<" ∨ String.mk [c] = "+" ∨ String.mk [c] = "-")
      ↔ runnable c = true := by
  constructor
  · rintro (h | h | h | h) <;>
    · have hd := congrArg String.data h
      simp only [] at hd
      injection hd with h1 h2
      subst h1
      decide
  · intro h
    have hm : c ∈ ['+', '-', '<', '>'] := by
      have h2 : List.elem c ['+', '-', '<', '>'] = true := h
      exact List.elem_iff.mp h2
    simp only [List.mem_cons, List.not_mem_nil, or_false] at hm
    rcases hm with rfl | rfl | rfl | rfl <;> decide

/-- Defining equation of `desugar` on a three-or-longer list. -/
theorem desugar_cons3 (a b c : Token) (rest : List Token) :
    desugar (a :: b :: c :: rest) =
      if isTriple a b c then ("CLR", 1) :: desugar rest
      else a :: desugar (b :: c :: rest) := rfl

/-- A list of at most two tokens is returned unchanged by `desugar`. -/
theorem desugar_short (l : List Token) (h : l.length ≤ 2) : desugar l = l := by
  match l with
  | [] => rfl
  | [a] => rfl
  | [a, b] => rfl
  | a :: b :: c :: r => simp at h

/-- A token other than a loop-start with count 1 is always copied. -/
theorem desugar_cons_ne (x : Token) (l : List Token) (hx : x ≠ ("[", 1)) :
    desugar (x :: l) = x :: desugar l := by
  match l with
  | [] => rfl
  | [y] => rfl
  | y :: z :: r =>
    rw [desugar_cons3, if_neg]
    simp only [isTriple, Bool.and_eq_true, beq_iff_eq]
    rintro ⟨⟨h1, h2⟩, h3⟩
    exact hx h1

/-- A token is copied whenever the three-token window it starts is not the
collapsible triple. -/
theorem desugar_cons_eq (x : Token) (l : List Token)
    (h : ∀ y z r, l = y :: z :: r → isTriple x y z = false) :
    desugar (x :: l) = x :: desugar l := by
  match l with
  | [] => rfl
  | [y] => rfl
  | y :: z :: r => rw [desugar_cons3, if_neg (by simp [h y z r rfl])]

/-- The head of a desugared sequence is the original head or a clear-cell
token. -/
theorem desugar_head (l : List Token) :
    (desugar l).head? = l.head? ∨ (desugar l).head? = some ("CLR", 1) := by
  match l with
  | [] => left; rfl
  | [a] => left; rfl
  | [a, b] => left; rfl
  | a :: b :: c :: r =>
    rw [desugar_cons3]
    cases h : isTriple a b c
    · simp
    · simp

/-- Every desugared token is an original token or the clear-cell token. -/
theorem desugar_mem (l : List Token) (t : Token) (ht : t ∈ desugar l) :
    t ∈ l ∨ t = ("CLR", 1) := by
  induction l using desugar.induct with
  | case1 a b c rest htr ih =>
    rw [desugar_cons3, if_pos htr] at ht
    rcases List.mem_cons.mp ht with h | h
    · right; exact h
    · rcases ih h with h2 | h2
      · left; simp [h2]
      · right; exact h2
  | case2 a b c rest htr ih =>
    rw [desugar_cons3, if_neg (by simp [htr])] at ht
    rcases List.mem_cons.mp ht with h | h
    · left; simp [h]
    · rcases ih h with h2 | h2
      · left; simp at h2 ⊢; tauto
      · right; exact h2
  | case3 l hshape =>
    left
    have hl : desugar l = l := by
      match l, hshape with
      | [], _ => rfl
      | [a], _ => rfl
      | [a, b], _ => rfl
      | a :: b :: c :: r, hs => exact (hs a b c r rfl).elim
    rwa [hl] at ht

/-- Desugaring never lengthens the sequence. -/
theorem desugar_length (l : List Token) : (desugar l).length ≤ l.length := by
  induction l using desugar.induct with
  | case1 a b c rest htr ih =>
    rw [desugar_cons3, if_pos htr]
    simp only [List.length_cons]
    omega
  | case2 a b c rest htr ih =>
    rw [desugar_cons3, if_neg (by simp [htr])]
    simp only [List.length_cons] at ih ⊢
    omega
  | case3 l hshape =>
    have hl : desugar l = l := by
      match l, hshape with
      | [], _ => rfl
      | [a], _ => rfl
      | [a, b], _ => rfl
      | a :: b :: c :: r, hs => exact (hs a b c r rfl).elim
    rw [hl]

/-- C10: the Desugarer is idempotent — one pass leaves nothing for a second
pass to collapse, because a collapse inserts a clear-cell token between the
copied neighbours, so copied tokens never become a new exact triple. -/
theorem desugar_idempotent (ts : List Token) : desugar (desugar ts) = desugar ts := by
  induction ts using desugar.induct with
  | case1 a b c rest htr ih =>
    rw [desugar_cons3, if_pos htr, desugar_cons_ne _ _ (by decide), ih]
  | case2 a b c rest htr ih =>
    rw [desugar_cons3, if_neg (by simp [htr])]
    by_cases ha : a = ("[", 1)
    · subst ha
      rw [desugar_cons_eq _ _ ?hw, ih]
      case hw =>
        intro y z r2 heq
        rw [Bool.eq_false_iff]
        intro hcontra
        simp only [isTriple, Bool.and_eq_true, beq_iff_eq] at hcontra
        obtain ⟨⟨-, hy2⟩, hz2⟩ := hcontra
        by_cases hb : b = ("-", 1)
        · subst hb
          have hc : c ≠ ("]", 1) := by
            intro hc
            subst hc
            exact htr (by decide)
          rw [desugar_cons_ne _ _ (by decide)] at heq
          have h2 : desugar (c :: rest) = z :: r2 := by
            injection heq
          have hz := desugar_head (c :: rest)
          rw [h2] at hz
          simp only [List.head?_cons] at hz
          rcases hz with hz | hz
          · injection hz with hzc
            subst hzc
            exact hc hz2
          · injection hz with hzc
            subst hzc
            exact absurd hz2 (by decide)
        · have hy := desugar_head (b :: c :: rest)
          rw [heq] at hy
          simp only [List.head?_cons] at hy
          rcases hy with hy | hy
          · injection hy with hyb
            subst hyb
            exact hb hy2
          · injection hy with hyb
            subst hyb
            exact absurd hy2 (by decide)
    · rw [desugar_cons_ne _ _ ha, ih]
  | case3 l hshape =>
    have hl : desugar l = l := by
      match l, hshape with
      | [], _ => rfl
      | [a], _ => rfl
      | [a, b], _ => rfl
      | a :: b :: c :: r, hs => exact (hs a b c r rfl).elim
    rw [hl, hl]

/-- Weight of a token for the length-conservation property: the count for
the four foldable operators, 1 for every other token. -/
theorem foldRunsAux_weight (l : List Char) :
    ((foldRunsAux l).map
      (fun t => if t.1 = ">" ∨ t.1 = "<" ∨ t.1 = "+" ∨ t.1 = "-" then t.2 else 1)).sum
      = l.length := by
  induction l using foldRunsAux.induct with
  | case1 => simp [foldRunsAux]
  | case2 c rest h ih =>
    rw [foldRunsAux, if_pos h]
    simp only [List.map_cons, List.sum_cons]
    rw [if_pos ((mk_single_runnable c).mpr h)]
    have hsplit := congrArg List.length
      (List.takeWhile_append_dropWhile (p := fun d => d == c) (l := rest))
    simp only [List.length_append] at hsplit
    simp only [List.length_cons]
    omega
  | case3 c rest h ih =>
    rw [foldRunsAux, if_neg h]
    simp only [List.map_cons, List.sum_cons]
    have hw : ¬(String.mk [c] = ">" ∨ String.mk [c] = "<" ∨
        String.mk [c] = "+" ∨ String.mk [c] = "-") :=
      fun hc => h ((mk_single_runnable c).mp hc)
    rw [if_neg hw]
    simp only [List.length_cons]
    omega

/-- Counts produced by the folder: at least 1 always, and exactly 1 unless
the operator is one of the four foldable ones. -/
theorem foldRunsAux_count (l : List Char) (t : Token) (ht : t ∈ foldRunsAux l) :
    1 ≤ t.2 ∧ (t.2 = 1 ∨ (t.1 = ">" ∨ t.1 = "<" ∨ t.1 = "+" ∨ t.1 = "-")) := by
  induction l using foldRunsAux.induct with
  | case1 => simp [foldRunsAux] at ht
  | case2 c rest h ih =>
    rw [foldRunsAux, if_pos h] at ht
    rcases List.mem_cons.mp ht with h2 | h2
    · subst h2
      exact ⟨Nat.le_add_left 1 _, Or.inr ((mk_single_runnable c).mpr h)⟩
    · exact ih h2
  | case3 c rest h ih =>
    rw [foldRunsAux, if_neg h] at ht
    rcases List.mem_cons.mp ht with h2 | h2
    · subst h2
      exact ⟨Nat.le_refl 1, Or.inl rfl⟩
    · exact ih h2

/-!
Claim theorems.  Each theorem settles one claim of the specification.
-/

/-- C7: the Normalizer is idempotent — `sanitize (sanitize s) = sanitize s`
for every input string, since filtering to the operator set leaves an
already-filtered string unchanged. -/
theorem sanitize_idempotent (s : String) : sanitize (sanitize s) = sanitize s := by
  simp [sanitize, List.filter_filter]

/-- C5: folding conserves length — summing the counts of the four foldable
operator tokens and 1 for every other token recovers the length of the
normalized operator string. -/
theorem fold_runs_length_conservation (s : String) :
    ((fold_runs s).map
      (fun t => if t.1 = ">" ∨ t.1 = "<" ∨ t.1 = "+" ∨ t.1 = "-" then t.2 else 1)).sum
      = s.length := by
  have h := foldRunsAux_weight s.toList
  simpa [fold_runs] using h

/-- C4: narrowness of the Desugarer — the pass never lengthens the
sequence, collapses exactly the triple ('[',1)('-',1)(']',1) into
('CLR',1), copies the leading token of any other three-token window
unchanged, and in particular leaves ('[',1)('-',2)(']',1) untouched. -/
theorem desugar_narrow :
    (∀ ts : List Token, (desugar ts).length ≤ ts.length) ∧
    (∀ rest : List Token,
      desugar (("[", 1) :: ("-", 1) :: ("]", 1) :: rest) = ("CLR", 1) :: desugar rest) ∧
    (∀ (a b c : Token) (rest : List Token),
      ¬(a = ("[", 1) ∧ b = ("-", 1) ∧ c = ("]", 1)) →
      desugar (a :: b :: c :: rest) = a :: desugar (b :: c :: rest)) ∧
    desugar [("[", 1), ("-", 2), ("]", 1)] = [("[", 1), ("-", 2), ("]", 1)] := by
  refine ⟨desugar_length, ?_, ?_, by decide⟩
  · intro rest
    rw [desugar_cons3, if_pos (by decide)]
  · intro a b c rest h
    rw [desugar_cons3, if_neg ?_]
    simp only [isTriple, Bool.and_eq_true, beq_iff_eq]
    rintro ⟨⟨h1, h2⟩, h3⟩
    exact h ⟨h1, h2, h3⟩

/-- Witness for C4 at a concrete non-matching window: the modified triple
with decrement count 2 has its head copied unchanged. -/
theorem desugar_narrow_witness :
    desugar [("[", 1), ("-", 2), ("]", 1)] = ("[", 1) :: desugar [("-", 2), ("]", 1)] :=
  desugar_narrow.2.2.1 ("[", 1) ("-", 2) ("]", 1) [] (by decide)

/-- C6: every folded token has count at least 1; loop and I/O tokens are
produced with count exactly 1; the desugarer preserves positivity and after
folding plus desugaring no output or input token has count above 1. -/
theorem token_count_invariant :
    (∀ s : String, ∀ t ∈ fold_runs s, 1 ≤ t.2 ∧
      ((t.1 = "[" ∨ t.1 = "]" ∨ t.1 = "." ∨ t.1 = ",") → t.2 = 1)) ∧
    (∀ ts : List Token, (∀ t ∈ ts, 1 ≤ t.2) → ∀ t ∈ desugar ts, 1 ≤ t.2) ∧
    (∀ s : String, ∀ t ∈ desugar (fold_runs s), 1 ≤ t.2 ∧
      ((t.1 = "." ∨ t.1 = ",") → t.2 = 1)) := by
  have hfold : ∀ s : String, ∀ t ∈ fold_runs s, 1 ≤ t.2 ∧
      ((t.1 = "[" ∨ t.1 = "]" ∨ t.1 = "." ∨ t.1 = ",") → t.2 = 1) := by
    intro s t ht
    obtain ⟨h1, h2⟩ := foldRunsAux_count s.toList t ht
    refine ⟨h1, fun hop => ?_⟩
    rcases h2 with h2 | h2
    · exact h2
    · exfalso
      rcases hop with h | h | h | h <;> rcases h2 with h2 | h2 | h2 | h2 <;>
        · rw [h] at h2
          exact absurd h2 (by decide)
  refine ⟨hfold, ?_, ?_⟩
  · intro ts hts t ht
    rcases desugar_mem ts t ht with h | h
    · exact hts t h
    · rw [h]
  · intro s t ht
    rcases desugar_mem (fold_runs s) t ht with h | h
    · obtain ⟨h1, h2⟩ := hfold s t h
      exact ⟨h1, fun hop => h2 (by tauto)⟩
    · rw [h]
      exact ⟨Nat.le_refl 1, fun hop => rfl⟩

/-- Witness for C6 at concrete inputs: the clear-cell token produced from
the source `+[-],` and the folded run of three pluses. -/
theorem token_count_invariant_witness :
    (1 ≤ (("CLR", 1) : Token).2 ∧
      (((("CLR", 1) : Token).1 = "." ∨ (("CLR", 1) : Token).1 = ",") →
        (("CLR", 1) : Token).2 = 1)) ∧
    (1 ≤ (("+", 3) : Token).2 ∧
      (((("+", 3) : Token).1 = "[" ∨ (("+", 3) : Token).1 = "]" ∨
        (("+", 3) : Token).1 = "." ∨ (("+", 3) : Token).1 = ",") →
        (("+", 3) : Token).2 = 1)) := by
  have h1 : fold_runs "+[-]," = [("+", 1), ("[", 1), ("-", 1), ("]", 1), (",", 1)] := by
    rw [fold_runs, show "+[-],".toList = ['+', '[', '-', ']', ','] from rfl]
    simp [foldRunsAux, runnable]
  have h2 : fold_runs "+++" = [("+", 3)] := by
    rw [fold_runs, show "+++".toList = ['+', '+', '+'] from rfl]
    simp [foldRunsAux, runnable]
  refine ⟨token_count_invariant.2.2 "+[-]," ("CLR", 1) ?_,
    token_count_invariant.1 "+++" ("+", 3) ?_⟩
  · rw [h1]; decide
  · rw [h2]; decide

/-- C2 counterexample: the claim says every generator emits no additional
loop-closing construct for an unmatched loop-end at floor depth, yet the Go
emitter appends a closing-brace line `    \x7d` for the lone unmatched
loop-end token — a line the empty program does not contain. -/
theorem unmatched_loop_end_counterexample :
    ("    \x7d" ∈ emit_go_lines [("]", 1)]) ∧ "    \x7d" ∉ emit_go_lines [] := by
  constructor
  · show "    \x7d" ∈ emit_go_lines [("]", 1)]
    simp only [emit_go_lines, hasIn, goBody]
    decide
  · simp only [emit_go_lines, hasIn, goBody]
    decide

/-- C2 amended: no generator fails on an unmatched loop-end and each clamps
its nesting depth at the floor (0 for Python, Lua, Ruby; 1 for the brace
languages); the Python generator emits no text for the token, while the Go,
C++, C#, Lua, Ruby and Rust generators each emit exactly one loop-closing
line for it at the clamped depth. -/
theorem unmatched_loop_end_clamped (has_in : Bool) (rest : List Token) :
    pythonBody (("]", 1) :: rest) 0 = pythonBody rest 0 ∧
    goBody has_in (("]", 1) :: rest) 1 = (indent 1 ++ "\x7d") :: goBody has_in rest 1 ∧
    cppBody has_in (("]", 1) :: rest) 1 = (indent 1 ++ "\x7d") :: cppBody has_in rest 1 ∧
    csBody has_in (("]", 1) :: rest) 1 = (indent 1 ++ "\x7d") :: csBody has_in rest 1 ∧
    luaBody (("]", 1) :: rest) 0 = (indent 0 ++ "end") :: luaBody rest 0 ∧
    rubyBody (("]", 1) :: rest) 0 = (indent 0 ++ "end") :: rubyBody rest 0 ∧
    rustBody has_in (("]", 1) :: rest) 1 = (indent 1 ++ "\x7d") :: rustBody has_in rest 1 := by
  refine ⟨?_, ?_, ?_, ?_, ?_, ?_, ?_⟩ <;>
    simp [pythonBody, goBody, cppBody, csBody, luaBody, rubyBody, rustBody]

/-- The increment statements of the Python, C++, C#, Lua and Ruby
backends add the count modulo 256, for every count. -/
theorem inc_eq_addmod :
    pythonSem.inc = (fun c n => some ((c + n) % 256)) ∧
    cppSem.inc = (fun c n => some ((c + n) % 256)) ∧
    csharpSem.inc = (fun c n => some ((c + n) % 256)) ∧
    luaSem.inc = (fun c n => some ((c + n) % 256)) ∧
    rubySem.inc = (fun c n => some ((c + n) % 256)) := by
  refine ⟨?_, ?_, ?_, ?_, ?_⟩ <;> funext c n
  · exact congrArg some (land255 (c + n))
  · exact congrArg some (land255 (c + n))
  · exact congrArg some (land255 (c + n))
  · rfl
  · exact congrArg some (land255 (c + n))

/-- The decrement statements of the Python, C++, C#, Lua and Ruby
backends subtract the count modulo 256 (as a nonnegative remainder), for
every count. -/
theorem dec_eq_submod :
    pythonSem.dec = (fun (c n : Nat) => some ((((c : Int) - (n : Int)) % 256).toNat)) ∧
    cppSem.dec = (fun (c n : Nat) => some ((((c : Int) - (n : Int)) % 256).toNat)) ∧
    csharpSem.dec = (fun (c n : Nat) => some ((((c : Int) - (n : Int)) % 256).toNat)) ∧
    luaSem.dec = (fun (c n : Nat) => some ((((c : Int) - (n : Int)) % 256).toNat)) ∧
    rubySem.dec = (fun (c n : Nat) => some ((((c : Int) - (n : Int)) % 256).toNat)) :=
  ⟨rfl, rfl, rfl, rfl, rfl⟩

/-- For counts that fit in a byte, the Go and Rust statements also add and
subtract the count modulo 256. -/
theorem go_rust_small (c n : Nat) (h : n < 256) :
    goSem.inc c n = some ((c + n) % 256) ∧ rustSem.inc c n = some ((c + n) % 256) ∧
    goSem.dec c n = some ((((c : Int) - (n : Int)) % 256).toNat) ∧
    rustSem.dec c n = some ((((c : Int) - (n : Int)) % 256).toNat) := by
  have hb : byteLit n = some n := if_pos h
  refine ⟨?_, ?_, ?_, ?_⟩ <;> simp [goSem, rustSem, hb]

/-- For counts of 256 or more, the Go and Rust count literals overflow a
byte and the generated programs have no behaviour. -/
theorem go_rust_overflow (c n : Nat) (h : 256 ≤ n) :
    goSem.inc c n = none ∧ rustSem.inc c n = none ∧
    goSem.dec c n = none ∧ rustSem.dec c n = none := by
  have hb : byteLit n = none := if_neg (by omega)
  refine ⟨?_, ?_, ?_, ?_⟩ <;> simp [goSem, rustSem, hb]

/-- Chaining modulo-256 increments adds the sum of the counts modulo 256,
whenever every individual count fits in a byte. -/
theorem incChain_mod (sem : Sem)
    (hsem : ∀ c n : Nat, n < 256 → sem.inc c n = some ((c + n) % 256)) :
    ∀ (ns : List Nat) (c : Nat), (∀ m ∈ ns, m < 256) →
      incChain sem ns (c % 256) = some ((c + ns.sum) % 256) := by
  intro ns
  induction ns with
  | nil =>
    intro c h
    simp [incChain]
  | cons m tl ih =>
    intro c h
    have hm : m < 256 := h m (List.mem_cons_self _ _)
    have htl : ∀ x ∈ tl, x < 256 := fun x hx => h x (List.mem_cons_of_mem _ hx)
    have hstep : incChain sem (m :: tl) (c % 256) = incChain sem tl ((c + m) % 256) := by
      rw [incChain, incChain, List.foldl_cons]
      rw [show (Option.bind (some (c % 256)) fun a => sem.inc a m)
            = sem.inc (c % 256) m from rfl]
      rw [hsem _ _ hm, show (c % 256 + m) % 256 = (c + m) % 256 by omega]
    rw [hstep, ih (c + m) htl]
    rw [List.sum_cons]
    congr 1
    omega

/-- C3 counterexample: the claim covers every token count including counts
above 255, but at count 256 the Go and Rust increment and decrement
statements carry the overflowing byte literal 256, so the generated
programs are rejected and update no cell at all — in particular the Go
increment does not produce the claimed modulo-256 update. -/
theorem modulo256_counterexample :
    goSem.inc 0 256 = none ∧ rustSem.inc 0 256 = none ∧
    goSem.dec 0 256 = none ∧ rustSem.dec 0 256 = none ∧
    ¬ goSem.inc 0 256 = some ((0 + 256) % 256) := by
  refine ⟨rfl, rfl, rfl, rfl, ?_⟩
  intro h
  exact Option.noConfusion h

/-- C3 amended: increments and decrements update the cell by the count
modulo 256 in every emitter for counts up to 255; the Python, C++, C#,
Lua and Ruby statements do so for every count, including counts above
255, while a Go or Rust count of 256 or more overflows the emitted byte
literal and the generated program is rejected; chains of counts below 256
summing to 256 return a zero cell to 0, and decrementing a zero cell by 1
gives 255 in every emitter. -/
theorem modulo256_arithmetic :
    (∀ c n : Nat, n < 256 →
      pythonSem.inc c n = some ((c + n) % 256) ∧ goSem.inc c n = some ((c + n) % 256) ∧
      cppSem.inc c n = some ((c + n) % 256) ∧ csharpSem.inc c n = some ((c + n) % 256) ∧
      luaSem.inc c n = some ((c + n) % 256) ∧ rubySem.inc c n = some ((c + n) % 256) ∧
      rustSem.inc c n = some ((c + n) % 256) ∧
      pythonSem.dec c n = some ((((c : Int) - (n : Int)) % 256).toNat) ∧
      goSem.dec c n = some ((((c : Int) - (n : Int)) % 256).toNat) ∧
      cppSem.dec c n = some ((((c : Int) - (n : Int)) % 256).toNat) ∧
      csharpSem.dec c n = some ((((c : Int) - (n : Int)) % 256).toNat) ∧
      luaSem.dec c n = some ((((c : Int) - (n : Int)) % 256).toNat) ∧
      rubySem.dec c n = some ((((c : Int) - (n : Int)) % 256).toNat) ∧
      rustSem.dec c n = some ((((c : Int) - (n : Int)) % 256).toNat)) ∧
    (∀ c n : Nat,
      pythonSem.inc c n = some ((c + n) % 256) ∧ cppSem.inc c n = some ((c + n) % 256) ∧
      csharpSem.inc c n = some ((c + n) % 256) ∧ luaSem.inc c n = some ((c + n) % 256) ∧
      rubySem.inc c n = some ((c + n) % 256) ∧
      pythonSem.dec c n = some ((((c : Int) - (n : Int)) % 256).toNat) ∧
      cppSem.dec c n = some ((((c : Int) - (n : Int)) % 256).toNat) ∧
      csharpSem.dec c n = some ((((c : Int) - (n : Int)) % 256).toNat) ∧
      luaSem.dec c n = some ((((c : Int) - (n : Int)) % 256).toNat) ∧
      rubySem.dec c n = some ((((c : Int) - (n : Int)) % 256).toNat)) ∧
    (∀ c n : Nat, 256 ≤ n →
      goSem.inc c n = none ∧ rustSem.inc c n = none ∧
      goSem.dec c n = none ∧ rustSem.dec c n = none) ∧
    (∀ ns : List Nat, ns.sum = 256 → (∀ m ∈ ns, m < 256) →
      incChain pythonSem ns 0 = some 0 ∧ incChain goSem ns 0 = some 0 ∧
      incChain cppSem ns 0 = some 0 ∧ incChain csharpSem ns 0 = some 0 ∧
      incChain luaSem ns 0 = some 0 ∧ incChain rubySem ns 0 = some 0 ∧
      incChain rustSem ns 0 = some 0) ∧
    (pythonSem.dec 0 1 = some 255 ∧ goSem.dec 0 1 = some 255 ∧
      cppSem.dec 0 1 = some 255 ∧ csharpSem.dec 0 1 = some 255 ∧
      luaSem.dec 0 1 = some 255 ∧ rubySem.dec 0 1 = some 255 ∧
      rustSem.dec 0 1 = some 255) := by
  obtain ⟨ip, ic, ics, il, ir⟩ := inc_eq_addmod
  obtain ⟨dp2, dc, dcs, dl, dr⟩ := dec_eq_submod
  refine ⟨?_, ?_, ?_, ?_, ?_⟩
  · intro c n h
    obtain ⟨g1, r1, g2, r2⟩ := go_rust_small c n h
    exact ⟨by rw [ip], g1, by rw [ic], by rw [ics], by rw [il], by rw [ir], r1,
      by rw [dp2], g2, by rw [dc], by rw [dcs], by rw [dl], by rw [dr], r2⟩
  · intro c n
    exact ⟨by rw [ip], by rw [ic], by rw [ics], by rw [il], by rw [ir],
      by rw [dp2], by rw [dc], by rw [dcs], by rw [dl], by rw [dr]⟩
  · intro c n h
    exact go_rust_overflow c n h
  · intro ns hsum hmem
    have key : ∀ sem : Sem, (∀ c n : Nat, n < 256 → sem.inc c n = some ((c + n) % 256)) →
        incChain sem ns 0 = some 0 := by
      intro sem hsem
      have h := incChain_mod sem hsem ns 0 hmem
      simp only [Nat.zero_mod, Nat.zero_add] at h
      rw [h, hsum]
    refine ⟨key _ ?_, key _ ?_, key _ ?_, key _ ?_, key _ ?_, key _ ?_, key _ ?_⟩
    · intro c n h; rw [ip]
    · intro c n h; exact (go_rust_small c n h).1
    · intro c n h; rw [ic]
    · intro c n h; rw [ics]
    · intro c n h; rw [il]
    · intro c n h; rw [ir]
    · intro c n h; exact (go_rust_small c n h).2.1
  · exact ⟨rfl, rfl, rfl, rfl, rfl, rfl, rfl⟩

/-- Witness for C3 at concrete inputs: every emitter at count 255, the Go
and Rust overflow at count 256, and the chained counts `[255, 1]` summing
to 256 on a zero cell. -/
theorem modulo256_arithmetic_witness :
    (pythonSem.inc 0 255 = some ((0 + 255) % 256) ∧
      goSem.inc 0 255 = some ((0 + 255) % 256) ∧
      cppSem.inc 0 255 = some ((0 + 255) % 256) ∧
      csharpSem.inc 0 255 = some ((0 + 255) % 256) ∧
      luaSem.inc 0 255 = some ((0 + 255) % 256) ∧
      rubySem.inc 0 255 = some ((0 + 255) % 256) ∧
      rustSem.inc 0 255 = some ((0 + 255) % 256) ∧
      pythonSem.dec 0 255 = some ((((0 : Int) - (255 : Int)) % 256).toNat) ∧
      goSem.dec 0 255 = some ((((0 : Int) - (255 : Int)) % 256).toNat) ∧
      cppSem.dec 0 255 = some ((((0 : Int) - (255 : Int)) % 256).toNat) ∧
      csharpSem.dec 0 255 = some ((((0 : Int) - (255 : Int)) % 256).toNat) ∧
      luaSem.dec 0 255 = some ((((0 : Int) - (255 : Int)) % 256).toNat) ∧
      rubySem.dec 0 255 = some ((((0 : Int) - (255 : Int)) % 256).toNat) ∧
      rustSem.dec 0 255 = some ((((0 : Int) - (255 : Int)) % 256).toNat)) ∧
    (goSem.inc 0 256 = none ∧ rustSem.inc 0 256 = none ∧
      goSem.dec 0 256 = none ∧ rustSem.dec 0 256 = none) ∧
    (incChain pythonSem [255, 1] 0 = some 0 ∧ incChain goSem [255, 1] 0 = some 0 ∧
      incChain cppSem [255, 1] 0 = some 0 ∧ incChain csharpSem [255, 1] 0 = some 0 ∧
      incChain luaSem [255, 1] 0 = some 0 ∧ incChain rubySem [255, 1] 0 = some 0 ∧
      incChain rustSem [255, 1] 0 = some 0) :=
  ⟨modulo256_arithmetic.1 0 255 (by decide),
   modulo256_arithmetic.2.2.1 0 256 (by decide),
   modulo256_arithmetic.2.2.2.1 [255, 1] (by decide) (by decide)⟩

/-- Dropping while a predicate holds is dropping the length of the taken
prefix. -/
theorem dropWhile_eq_drop {α : Type} (p : α → Bool) :
    ∀ l : List α, l.dropWhile p = l.drop (l.takeWhile p).length := by
  intro l
  induction l with
  | nil => rfl
  | cons a tl ih =>
    by_cases h : p a
    · simp [List.dropWhile_cons, List.takeWhile_cons, h, ih]
    · simp [List.dropWhile_cons, List.takeWhile_cons, h]

/-- The run scan of the checked folder lands just past the taken run. -/
theorem scanRun_eq (ops : List Char) (c : Char) (j : Nat) :
    scanRun ops c j = j + ((ops.drop j).takeWhile (fun d => d == c)).length := by
  rw [scanRun]
  by_cases h : j < ops.length
  · rw [dif_pos h]
    rw [List.drop_eq_getElem_cons h]
    by_cases hc : ops.get ⟨j, h⟩ == c
    · rw [if_pos hc]
      rw [scanRun_eq ops c (j + 1)]
      simp only [List.takeWhile_cons]
      rw [show ops[j] = ops.get ⟨j, h⟩ from rfl, hc]
      simp only [if_true, List.length_cons]
      omega
    · rw [if_neg hc]
      simp only [List.takeWhile_cons]
      rw [show ops[j] = ops.get ⟨j, h⟩ from rfl]
      simp only [Bool.not_eq_true] at hc
      rw [hc]
      simp
  · rw [dif_neg h]
    rw [List.drop_eq_nil_of_le (by omega)]
    simp
termination_by ops.length - j
decreasing_by omega

/-- The checked index-level folder computes exactly the folder's result on
the remaining suffix, in particular it never fails. -/
theorem foldRunsIdx_eq (ops : List Char) (i : Nat) :
    foldRunsIdx ops i = some (foldRunsAux (ops.drop i)) := by
  rw [foldRunsIdx]
  by_cases h : i < ops.length
  · rw [dif_pos h]
    rw [List.getElem?_eq_getElem h]
    simp only []
    rw [List.drop_eq_getElem_cons h, foldRunsAux]
    by_cases hr : runnable ops[i]
    · rw [if_pos hr, if_pos hr]
      have hscan := scanRun_eq ops ops[i] (i + 1)
      have hge : i + 1 ≤ scanRun ops ops[i] (i + 1) := scanRun_ge ops ops[i] (i + 1)
      rw [foldRunsIdx_eq ops (scanRun ops ops[i] (i + 1))]
      refine congrArg some ?_
      rw [dropWhile_eq_drop, List.drop_drop]
      rw [show scanRun ops ops[i] (i + 1)
            = (List.takeWhile (fun d => d == ops[i]) (List.drop (i + 1) ops)).length + (i + 1)
          by omega]
      rw [show (List.takeWhile (fun d => d == ops[i]) (List.drop (i + 1) ops)).length + (i + 1) - i
            = (List.takeWhile (fun d => d == ops[i]) (List.drop (i + 1) ops)).length + 1
          by omega]
      rw [Nat.add_comm (List.takeWhile (fun d => d == ops[i]) (List.drop (i + 1) ops)).length (i + 1)]
    · rw [if_neg hr, if_neg hr, foldRunsIdx_eq ops (i + 1)]
      rfl
  · rw [dif_neg h, List.drop_eq_nil_of_le (by omega)]
    simp [foldRunsAux]
termination_by ops.length - i
decreasing_by all_goals omega

/-- The checked index-level desugarer computes exactly the desugarer's
result on the remaining suffix, in particular it never fails. -/
theorem desugarIdx_eq (tokens : List Token) (i : Nat) :
    desugarIdx tokens i = some (desugar (tokens.drop i)) := by
  rw [desugarIdx]
  by_cases h : i < tokens.length
  · rw [if_pos h]
    by_cases h2 : i + 2 < tokens.length
    · rw [if_pos h2]
      rw [List.getElem?_eq_getElem h,
        List.getElem?_eq_getElem (show i + 1 < tokens.length by omega),
        List.getElem?_eq_getElem h2]
      simp only []
      rw [List.drop_eq_getElem_cons h,
        List.drop_eq_getElem_cons (show i + 1 < tokens.length by omega),
        List.drop_eq_getElem_cons h2, desugar_cons3]
      by_cases htr : isTriple tokens[i] tokens[i + 1] tokens[i + 2]
      · rw [if_pos htr]
        have htr2 : (tokens[i] == (("[" : String), 1) && tokens[i + 1] == (("-" : String), 1)
            && tokens[i + 2] == (("]" : String), 1)) = true := htr
        rw [htr2, if_pos rfl, desugarIdx_eq tokens (i + 3)]
        rfl
      · rw [if_neg htr]
        have htr2 : (tokens[i] == (("[" : String), 1) && tokens[i + 1] == (("-" : String), 1)
            && tokens[i + 2] == (("]" : String), 1)) = false := by
          rw [Bool.eq_false_iff]
          exact htr
        rw [htr2, if_neg (by decide), desugarIdx_eq tokens (i + 1)]
        rw [List.drop_eq_getElem_cons (show i + 1 < tokens.length by omega),
          List.drop_eq_getElem_cons h2]
        rfl
    · rw [if_neg h2]
      rw [List.getElem?_eq_getElem h]
      rw [desugarIdx_eq tokens (i + 1)]
      have hlen : (tokens.drop (i + 1)).length ≤ 2 := by
        simp only [List.length_drop]
        omega
      rw [desugar_short _ hlen, List.drop_eq_getElem_cons h,
        desugar_short _ (by simp only [List.length_cons, List.length_drop]; omega)]
      rfl
  · rw [if_neg h, List.drop_eq_nil_of_le (by omega)]
    rfl
termination_by tokens.length - i
decreasing_by all_goals omega

/-- C8: totality of the pipeline — the Normalizer accepts any string (its
output never exceeds the input), the checked index-level Folder and
Desugarer (whose list accesses report failure as `none`) always succeed
and agree with the folder and desugarer, and every emitter returns program
text on every token sequence, including unbalanced ones. -/
theorem pipeline_total :
    (∀ s : String, (sanitize s).length ≤ s.length) ∧
    (∀ s : String, foldRunsChecked s = some (fold_runs s)) ∧
    (∀ ts : List Token, desugarChecked ts = some (desugar ts)) ∧
    (∀ ts : List Token,
      emit_python_lines ts ≠ [] ∧ emit_go_lines ts ≠ [] ∧ emit_cpp_lines ts ≠ [] ∧
      emit_csharp_lines ts ≠ [] ∧ emit_lua_lines ts ≠ [] ∧ emit_ruby_lines ts ≠ [] ∧
      emit_rust_lines ts ≠ []) := by
  refine ⟨?_, ?_, ?_, ?_⟩
  · intro s
    exact List.length_filter_le _ _
  · intro s
    rw [foldRunsChecked, foldRunsIdx_eq, List.drop_zero, fold_runs]
  · intro ts
    rw [desugarChecked, desugarIdx_eq, List.drop_zero]
  · intro ts
    refine ⟨?_, ?_, ?_, ?_, ?_, ?_, ?_⟩ <;>
      simp [emit_python_lines, emit_go_lines, emit_cpp_lines, emit_csharp_lines,
        emit_lua_lines, emit_ruby_lines, emit_rust_lines]

/-- The substring test decides the infix relation on character lists. -/
theorem hasSub_iff (p : List Char) : ∀ l : List Char, hasSub p l = true ↔ p <:+: l := by
  intro l
  induction l with
  | nil =>
    simp only [hasSub, List.isEmpty_iff, List.infix_nil]
  | cons c rest ih =>
    simp only [hasSub, Bool.or_eq_true, List.isPrefixOf_iff_prefix, ih,
      List.infix_cons_iff]

/-- A pattern without digits or spaces occurs in a line only if it occurs
in the line's skeleton. -/
theorem hasSub_skeleton (p : List Char) (hp : p.filter keepChar = p) (l : String)
    (h : hasSub p l.toList = true) : hasSub p (skeleton l) = true := by
  rw [hasSub_iff] at h ⊢
  obtain ⟨u, t, hut⟩ := h
  refine ⟨u.filter keepChar, t.filter keepChar, ?_⟩
  rw [skeleton, ← hut, List.filter_append, List.filter_append, hp]

/-- Every character of a rendered count is a decimal digit. -/
theorem natStr_digits (n : Nat) : ∀ c ∈ (natStr n).toList, c.isDigit = true := by
  induction n using natStr.induct with
  | case1 n h =>
    intro c hc
    rw [natStr, dif_pos h] at hc
    rcases List.mem_singleton.mp hc with rfl
    interval_cases n <;> decide
  | case2 n h ih =>
    intro c hc
    rw [natStr, dif_neg h] at hc
    rcases List.mem_append.mp hc with h2 | h2
    · exact ih c h2
    · rcases List.mem_singleton.mp h2 with rfl
      have h10 : n % 10 < 10 := Nat.mod_lt n (by omega)
      generalize n % 10 = r at h10 ⊢
      interval_cases r <;> decide

/-- The skeleton of a rendered count is empty. -/
theorem skeleton_natStr (n : Nat) : skeleton (natStr n) = [] := by
  rw [skeleton, List.filter_eq_nil_iff]
  intro c hc
  rw [keepChar, natStr_digits n c hc]
  simp

/-- The skeleton of an indentation prefix is empty. -/
theorem skeleton_indent (ind : Nat) : skeleton (indent ind) = [] := by
  rw [skeleton, List.filter_eq_nil_iff]
  intro c hc
  have : c = ' ' := List.eq_of_mem_replicate hc
  subst this
  decide

/-- Skeletons ignore string concatenation structure. -/
theorem skeleton_append (a b : String) :
    skeleton (a ++ b) = skeleton a ++ skeleton b := by
  simp [skeleton, String.toList, List.filter_append]

/-- Skeleton of an indented fixed line. -/
theorem skeleton_line2 (ind : Nat) (a : String) :
    skeleton (indent ind ++ a) = skeleton a := by
  rw [skeleton_append, skeleton_indent]
  rfl

/-- Skeleton of an indented line ending in a rendered count. -/
theorem skeleton_line2n (ind : Nat) (a : String) (n : Nat) :
    skeleton (indent ind ++ a ++ natStr n) = skeleton a := by
  rw [skeleton_append, skeleton_append, skeleton_indent, skeleton_natStr]
  simp

/-- Skeleton of an indented line with a rendered count in the middle. -/
theorem skeleton_line3 (ind : Nat) (a : String) (n : Nat) (b : String) :
    skeleton (indent ind ++ a ++ natStr n ++ b) = skeleton a ++ skeleton b := by
  rw [skeleton_append, skeleton_append, skeleton_append, skeleton_indent, skeleton_natStr]
  simp

/-- Every Go body line for a comma-free token sequence has one of the
finitely many non-input skeletons. -/
theorem goBody_skel (hin : Bool) (ts : List Token) :
    ∀ ind, (∀ t ∈ ts, t.1 ≠ ",") → ∀ line ∈ goBody hin ts ind, skeleton line ∈ goSkels := by
  induction ts with
  | nil =>
    intro ind h line hline
    simp [goBody] at hline
  | cons t rest ih =>
    intro ind h line hline
    obtain ⟨op, n⟩ := t
    have hop : op ≠ "," := by
      have := h (op, n) (List.mem_cons_self _ _)
      simpa using this
    have hrest : ∀ t2 ∈ rest, t2.1 ≠ "," := fun t2 ht2 => h t2 (List.mem_cons_of_mem _ ht2)
    have hstep : ∀ (x : String) (ind2 : Nat), skeleton x ∈ goSkels →
        line ∈ x :: goBody hin rest ind2 → skeleton line ∈ goSkels := by
      intro x ind2 hx hmem
      rcases List.mem_cons.mp hmem with rfl | hmem2
      · exact hx
      · exact ih _ hrest _ hmem2
    have hcf : (op == "," && hin) = false := by
      simp [hop]
    rw [goBody] at hline
    simp only [hcf, Bool.false_eq_true, if_false] at hline
    split_ifs at hline
    all_goals
      first
        | exact ih _ hrest _ hline
        | exact hstep _ _ (by
            simp only [skeleton_line3, skeleton_line2n, skeleton_line2]
            decide) hline

/-- Every C++ body line for a comma-free token sequence has one of the
finitely many non-input skeletons. -/
theorem cppBody_skel (hin : Bool) (ts : List Token) :
    ∀ ind, (∀ t ∈ ts, t.1 ≠ ",") → ∀ line ∈ cppBody hin ts ind, skeleton line ∈ cppSkels := by
  induction ts with
  | nil =>
    intro ind h line hline
    rw [cppBody] at hline
    rcases List.mem_singleton.mp hline with rfl
    rw [skeleton_line2]
    decide
  | cons t rest ih =>
    intro ind h line hline
    obtain ⟨op, n⟩ := t
    have hop : op ≠ "," := by
      have := h (op, n) (List.mem_cons_self _ _)
      simpa using this
    have hrest : ∀ t2 ∈ rest, t2.1 ≠ "," := fun t2 ht2 => h t2 (List.mem_cons_of_mem _ ht2)
    have hstep : ∀ (x : String) (ind2 : Nat), skeleton x ∈ cppSkels →
        line ∈ x :: cppBody hin rest ind2 → skeleton line ∈ cppSkels := by
      intro x ind2 hx hmem
      rcases List.mem_cons.mp hmem with rfl | hmem2
      · exact hx
      · exact ih _ hrest _ hmem2
    have hcf : (op == "," && hin) = false := by
      simp [hop]
    rw [cppBody] at hline
    simp only [hcf, Bool.false_eq_true, if_false] at hline
    split_ifs at hline
    all_goals
      first
        | exact ih _ hrest _ hline
        | exact hstep _ _ (by
            simp only [skeleton_line3, skeleton_line2n, skeleton_line2]
            decide) hline

/-- Every C# body line for a comma-free token sequence has one of the
finitely many non-input skeletons. -/
theorem csBody_skel (hin : Bool) (ts : List Token) :
    ∀ ind, (∀ t ∈ ts, t.1 ≠ ",") → ∀ line ∈ csBody hin ts ind, skeleton line ∈ csSkels := by
  induction ts with
  | nil =>
    intro ind h line hline
    simp [csBody] at hline
  | cons t rest ih =>
    intro ind h line hline
    obtain ⟨op, n⟩ := t
    have hop : op ≠ "," := by
      have := h (op, n) (List.mem_cons_self _ _)
      simpa using this
    have hrest : ∀ t2 ∈ rest, t2.1 ≠ "," := fun t2 ht2 => h t2 (List.mem_cons_of_mem _ ht2)
    have hstep : ∀ (x : String) (ind2 : Nat), skeleton x ∈ csSkels →
        line ∈ x :: csBody hin rest ind2 → skeleton line ∈ csSkels := by
      intro x ind2 hx hmem
      rcases List.mem_cons.mp hmem with rfl | hmem2
      · exact hx
      · exact ih _ hrest _ hmem2
    have hcf : (op == "," && hin) = false := by
      simp [hop]
    rw [csBody] at hline
    simp only [hcf, Bool.false_eq_true, if_false] at hline
    split_ifs at hline
    all_goals
      first
        | exact ih _ hrest _ hline
        | exact hstep _ _ (by
            simp only [skeleton_line3, skeleton_line2n, skeleton_line2]
            decide) hline

/-- Every Rust body line for a comma-free token sequence has one of the
finitely many non-input skeletons. -/
theorem rustBody_skel (hin : Bool) (ts : List Token) :
    ∀ ind, (∀ t ∈ ts, t.1 ≠ ",") → ∀ line ∈ rustBody hin ts ind, skeleton line ∈ rustSkels := by
  induction ts with
  | nil =>
    intro ind h line hline
    rw [rustBody] at hline
    rcases List.mem_singleton.mp hline with rfl
    rw [skeleton_line2]
    decide
  | cons t rest ih =>
    intro ind h line hline
    obtain ⟨op, n⟩ := t
    have hop : op ≠ "," := by
      have := h (op, n) (List.mem_cons_self _ _)
      simpa using this
    have hrest : ∀ t2 ∈ rest, t2.1 ≠ "," := fun t2 ht2 => h t2 (List.mem_cons_of_mem _ ht2)
    have hstep : ∀ (x : String) (ind2 : Nat), skeleton x ∈ rustSkels →
        line ∈ x :: rustBody hin rest ind2 → skeleton line ∈ rustSkels := by
      intro x ind2 hx hmem
      rcases List.mem_cons.mp hmem with rfl | hmem2
      · exact hx
      · exact ih _ hrest _ hmem2
    have hcf : (op == "," && hin) = false := by
      simp [hop]
    rw [rustBody] at hline
    simp only [hcf, Bool.false_eq_true, if_false] at hline
    split_ifs at hline
    all_goals
      first
        | exact ih _ hrest _ hline
        | exact hstep _ _ (by
            simp only [skeleton_line3, skeleton_line2n, skeleton_line2]
            decide) hline

/-- A token sequence without input tokens sets the `has_in` flag to false. -/
theorem hasIn_false (ts : List Token) (h : ∀ t ∈ ts, t.1 ≠ ",") : hasIn ts = false := by
  rw [hasIn, List.any_eq_false]
  intro t ht
  simp [h t ht]

/-- Every line of the Go program generated for a comma-free token sequence
has a non-input skeleton. -/
theorem emit_go_skels (ts : List Token) (h : ∀ t ∈ ts, t.1 ≠ ",") :
    ∀ line ∈ emit_go_lines ts, skeleton line ∈ goAllSkels := by
  have hbody : ∀ x ∈ goBody false ts 1, skeleton x ∈ goAllSkels := fun x hx =>
    List.mem_append_left _ (goBody_skel false ts 1 h x hx)
  intro line hline
  simp only [emit_go_lines, hasIn_false ts h, Bool.false_eq_true, if_false,
    List.append_nil, List.nil_append, List.cons_append, List.mem_cons] at hline
  rcases hline with rfl | rfl | rfl | rfl | rfl | rfl | rfl | rfl | rfl | rfl | rfl | rfl | h1
  case _ => decide
  case _ => decide
  case _ => decide
  case _ => decide
  case _ => decide
  case _ => decide
  case _ => decide
  case _ => decide
  case _ => decide
  case _ => decide
  case _ => decide
  case _ => decide
  rcases List.mem_append.mp h1 with h2 | h2
  · exact hbody _ h2
  · simp only [List.mem_cons, List.not_mem_nil, or_false] at h2
    rcases h2 with rfl | rfl <;> decide

/-- Every line of the C++ program generated for a comma-free token
sequence has a non-input skeleton. -/
theorem emit_cpp_skels (ts : List Token) (h : ∀ t ∈ ts, t.1 ≠ ",") :
    ∀ line ∈ emit_cpp_lines ts, skeleton line ∈ cppAllSkels := by
  have hbody : ∀ x ∈ cppBody false ts 1, skeleton x ∈ cppAllSkels := fun x hx =>
    List.mem_append_left _ (cppBody_skel false ts 1 h x hx)
  intro line hline
  simp only [emit_cpp_lines, hasIn_false ts h, Bool.false_eq_true, if_false,
    List.append_nil, List.nil_append, List.cons_append, List.mem_cons] at hline
  rcases hline with rfl | rfl | rfl | rfl | rfl | h1
  case _ => decide
  case _ => decide
  case _ => decide
  case _ => decide
  case _ => decide
  rcases List.mem_append.mp h1 with h2 | h2
  · exact hbody _ h2
  · simp only [List.mem_cons, List.not_mem_nil, or_false] at h2
    rcases h2 with rfl | rfl <;> decide

/-- Every line of the C# program generated for a comma-free token sequence
has a non-input skeleton. -/
theorem emit_cs_skels (ts : List Token) (h : ∀ t ∈ ts, t.1 ≠ ",") :
    ∀ line ∈ emit_csharp_lines ts, skeleton line ∈ csAllSkels := by
  have hbody : ∀ x ∈ csBody false ts 1, skeleton x ∈ csAllSkels := fun x hx =>
    List.mem_append_left _ (csBody_skel false ts 1 h x hx)
  intro line hline
  simp only [emit_csharp_lines, hasIn_false ts h, Bool.false_eq_true, if_false,
    List.append_nil, List.nil_append, List.cons_append, List.mem_cons] at hline
  rcases hline with rfl | rfl | rfl | rfl | rfl | h1
  case _ => decide
  case _ => decide
  case _ => decide
  case _ => decide
  case _ => decide
  rcases List.mem_append.mp h1 with h2 | h2
  · exact hbody _ h2
  · simp only [List.mem_cons, List.not_mem_nil, or_false] at h2
    rcases h2 with rfl | rfl <;> decide

/-- Every line of the Rust program generated for a comma-free token
sequence has a non-input skeleton. -/
theorem emit_rust_skels (ts : List Token) (h : ∀ t ∈ ts, t.1 ≠ ",") :
    ∀ line ∈ emit_rust_lines ts, skeleton line ∈ rustAllSkels := by
  have hbody : ∀ x ∈ rustBody false ts 1, skeleton x ∈ rustAllSkels := fun x hx =>
    List.mem_append_left _ (rustBody_skel false ts 1 h x hx)
  intro line hline
  simp only [emit_rust_lines, hasIn_false ts h, Bool.false_eq_true, if_false,
    List.append_nil, List.nil_append, List.cons_append, List.mem_cons] at hline
  rcases hline with rfl | rfl | rfl | rfl | rfl | h1
  case _ => decide
  case _ => decide
  case _ => decide
  case _ => decide
  case _ => decide
  rcases List.mem_append.mp h1 with h2 | h2
  · exact hbody _ h2
  · simp only [List.mem_cons, List.not_mem_nil, or_false] at h2
    rcases h2 with rfl | rfl <;> decide

/-- A pattern that is absent from a line's skeleton is absent from the
line. -/
theorem clean_line (p : List Char) (hp : p.filter keepChar = p)
    (skels : List (List Char)) (hdec : ∀ s ∈ skels, hasSub p s = false)
    (l : String) (hsk : skeleton l ∈ skels) : hasSub p l.toList = false := by
  cases hx : hasSub p l.toList
  · rfl
  · have h2 := hasSub_skeleton p hp l hx
    rw [hdec _ hsk] at h2
    exact absurd h2 (by decide)

/-- C9: for a token sequence with no input token, the Go, C++, C# and Rust
generators emit no input-reading facility: no generated line contains the
reader declaration or read call of its backend (`os.Stdin`/`getchar` for
Go, `std::cin.get` for C++, `OpenStandardInput`/`ReadByte` for C#,
`io::stdin`/`getchar` for Rust). -/
theorem no_input_no_reader (ts : List Token) (h : ∀ t ∈ ts, t.1 ≠ ",") :
    ((emit_go_lines ts).all
        (fun l => !hasSub ("Stdin".toList) l.toList && !hasSub ("getchar".toList) l.toList)
      = true) ∧
    ((emit_cpp_lines ts).all (fun l => !hasSub ("cin.get".toList) l.toList) = true) ∧
    ((emit_csharp_lines ts).all
        (fun l => !hasSub ("OpenStandardInput".toList) l.toList
          && !hasSub ("ReadByte".toList) l.toList) = true) ∧
    ((emit_rust_lines ts).all
        (fun l => !hasSub ("stdin".toList) l.toList && !hasSub ("getchar".toList) l.toList)
      = true) := by
  refine ⟨?_, ?_, ?_, ?_⟩
  · rw [List.all_eq_true]
    intro l hl
    rw [clean_line ("Stdin".toList) (by decide) goAllSkels (by decide) l
        (emit_go_skels ts h l hl),
      clean_line ("getchar".toList) (by decide) goAllSkels (by decide) l
        (emit_go_skels ts h l hl)]
    rfl
  · rw [List.all_eq_true]
    intro l hl
    rw [clean_line ("cin.get".toList) (by decide) cppAllSkels (by decide) l
        (emit_cpp_skels ts h l hl)]
    rfl
  · rw [List.all_eq_true]
    intro l hl
    rw [clean_line ("OpenStandardInput".toList) (by decide) csAllSkels (by decide) l
        (emit_cs_skels ts h l hl),
      clean_line ("ReadByte".toList) (by decide) csAllSkels (by decide) l
        (emit_cs_skels ts h l hl)]
    rfl
  · rw [List.all_eq_true]
    intro l hl
    rw [clean_line ("stdin".toList) (by decide) rustAllSkels (by decide) l
        (emit_rust_skels ts h l hl),
      clean_line ("getchar".toList) (by decide) rustAllSkels (by decide) l
        (emit_rust_skels ts h l hl)]
    rfl

/-- Two cell semantics with equal fields are equal. -/
theorem sem_eq (s t : Sem) (h1 : s.inc = t.inc) (h2 : s.dec = t.dec)
    (h3 : s.getchar = t.getchar) : s = t := by
  cases s
  cases t
  simp_all

/-- The C++ arithmetic is the Python arithmetic verbatim. -/
theorem cppSem_eq_pythonSem : cppSem = pythonSem := rfl

/-- The C# arithmetic is the Python arithmetic verbatim. -/
theorem csharpSem_eq_pythonSem : csharpSem = pythonSem := rfl

/-- The Lua floored-modulo arithmetic agrees with the Python masked
arithmetic. -/
theorem luaSem_eq_pythonSem : luaSem = pythonSem :=
  sem_eq _ _ (by
    funext c n
    exact congrArg some (land255 (c + n)).symm) rfl rfl

/-- The Ruby arithmetic is the Python arithmetic verbatim. -/
theorem rubySem_eq_pythonSem : rubySem = pythonSem := rfl

/-- The Rust wrapping arithmetic is the Go byte arithmetic verbatim. -/
theorem rustSem_eq_goSem : rustSem = goSem := rfl

/-- Reading the current cell commutes with shifting. -/
theorem shiftSt_read (k : Int) (s : St) :
    (shiftSt k s).tape (shiftSt k s).dp = s.tape s.dp := by
  simp only [shiftSt]
  rw [Int.sub_add_cancel]

/-- Writing the current cell commutes with shifting. -/
theorem shiftSt_write (k : Int) (s : St) (v : Nat) :
    writeCell (shiftSt k s) v = shiftSt k (writeCell s v) := by
  simp only [writeCell, shiftSt]
  congr 1
  funext i
  by_cases hi : i = s.dp - k
  · rw [if_pos hi, if_pos (by omega)]
  · rw [if_neg hi, if_neg (by omega)]

/-- Moving the pointer commutes with shifting. -/
theorem shiftSt_move (k : Int) (s : St) (m : Int) :
    ({ shiftSt k s with dp := (shiftSt k s).dp + m } : St)
      = shiftSt k { s with dp := s.dp + m } := by
  simp only [shiftSt]
  congr 1
  omega

/-- Appending output commutes with shifting. -/
theorem shiftSt_out (k : Int) (s : St) (r : List Nat) :
    ({ shiftSt k s with out := (shiftSt k s).out ++ r } : St)
      = shiftSt k { s with out := s.out ++ r } := rfl

/-- The counted input action commutes with shifting. -/
theorem shiftSt_inpN (sem : Sem) (k : Int) :
    ∀ (n : Nat) (s : St), inpN sem n (shiftSt k s) = shiftSt k (inpN sem n s) := by
  intro n
  induction n with
  | zero => intro s; rfl
  | succ m ih =>
    intro s
    rw [inpN, inpN]
    rw [show ({ shiftSt k s with inp := (sem.getchar (shiftSt k s).inp).2 } : St)
        = shiftSt k { s with inp := (sem.getchar s.inp).2 } from rfl]
    rw [show (sem.getchar (shiftSt k s).inp).1 = (sem.getchar s.inp).1 from rfl]
    rw [show writeCell (shiftSt k { s with inp := (sem.getchar s.inp).2 })
          (sem.getchar s.inp).1
        = shiftSt k (writeCell { s with inp := (sem.getchar s.inp).2 }
          (sem.getchar s.inp).1) from shiftSt_write k _ _]
    rw [ih]

/-- Executing any program commutes with shifting the whole state: the
behaviour of a generated program does not depend on where the tape region
starts, which relates Lua's 1-based pointer to the 0-based targets. -/
theorem run_shift (sem : Sem) (k : Int) :
    ∀ (fuel : Nat) (prog : List Instr) (s : St),
      run sem fuel prog (shiftSt k s) = (run sem fuel prog s).map (shiftSt k) := by
  intro fuel
  induction fuel with
  | zero =>
    intro prog s
    cases prog with
    | nil => rfl
    | cons i rest => rfl
  | succ f ih =>
    intro prog s
    cases prog with
    | nil => rfl
    | cons i rest =>
      cases i with
      | move m =>
        rw [run, run, shiftSt_move, ih]
      | inc n =>
        rw [run, run, shiftSt_read]
        cases sem.inc (s.tape s.dp) n with
        | none => rfl
        | some v =>
          show run sem f rest (writeCell (shiftSt k s) v)
              = (run sem f rest (writeCell s v)).map (shiftSt k)
          rw [shiftSt_write]
          exact ih rest (writeCell s v)
      | dec n =>
        rw [run, run, shiftSt_read]
        cases sem.dec (s.tape s.dp) n with
        | none => rfl
        | some v =>
          show run sem f rest (writeCell (shiftSt k s) v)
              = (run sem f rest (writeCell s v)).map (shiftSt k)
          rw [shiftSt_write]
          exact ih rest (writeCell s v)
      | output n =>
        rw [run, run, shiftSt_read, shiftSt_out, ih]
      | input n =>
        rw [run, run, shiftSt_inpN, ih]
      | clr =>
        rw [run, run, shiftSt_write, ih]
      | loop body =>
        rw [run, run, shiftSt_read]
        by_cases hc : s.tape s.dp ≠ 0
        · rw [if_pos hc, if_pos hc, ih body s]
          cases hres : run sem f body s with
          | none => rfl
          | some s2 =>
            have hred : (match Option.map (shiftSt k) (some s2) with
                | none => none
                | some s3 => run sem f (Instr.loop body :: rest) s3)
                = run sem f (Instr.loop body :: rest) (shiftSt k s2) := rfl
            exact hred.trans (ih (Instr.loop body :: rest) s2)
        · rw [if_neg hc, if_neg hc]
          exact ih rest s

/-- The counted input action depends only on the input behaviour of the
semantics. -/
theorem inpN_congr (semA semB : Sem) (hg : semA.getchar = semB.getchar) :
    ∀ (n : Nat) (s : St), inpN semA n s = inpN semB n s := by
  intro n
  induction n with
  | zero => intro s; rfl
  | succ m ih =>
    intro s
    rw [inpN, inpN, hg, ih]

/-- On a program all of whose increment and decrement counts fit in a
byte — so that the generated Go program contains no overflowing byte
literal — the Go semantics runs exactly as the Python semantics. -/
theorem run_go_python :
    ∀ (fuel : Nat) (prog : List Instr) (s : St), smallCounts prog = true →
      run goSem fuel prog s = run pythonSem fuel prog s := by
  intro fuel
  induction fuel with
  | zero =>
    intro prog s hs
    cases prog with
    | nil => rfl
    | cons i rest => rfl
  | succ f ih =>
    intro prog s hs
    cases prog with
    | nil => rfl
    | cons i rest =>
      have hs0 := hs
      rw [smallCounts, Bool.and_eq_true] at hs
      obtain ⟨h1, h2⟩ := hs
      cases i with
      | move m =>
        rw [run, run]
        exact ih rest _ h2
      | inc n =>
        have hn : n < 256 := by
          simp only [smallCountsI] at h1
          exact of_decide_eq_true h1
        rw [run, run]
        have hsem : goSem.inc (s.tape s.dp) n = pythonSem.inc (s.tape s.dp) n := by
          rw [(go_rust_small _ n hn).1]
          exact congrArg some (land255 _).symm
        rw [hsem]
        cases pythonSem.inc (s.tape s.dp) n with
        | none => rfl
        | some v =>
          show run goSem f rest (writeCell s v) = run pythonSem f rest (writeCell s v)
          exact ih rest _ h2
      | dec n =>
        have hn : n < 256 := by
          simp only [smallCountsI] at h1
          exact of_decide_eq_true h1
        rw [run, run]
        have hsem : goSem.dec (s.tape s.dp) n = pythonSem.dec (s.tape s.dp) n := by
          rw [(go_rust_small _ n hn).2.2.1]
          rfl
        rw [hsem]
        cases pythonSem.dec (s.tape s.dp) n with
        | none => rfl
        | some v =>
          show run goSem f rest (writeCell s v) = run pythonSem f rest (writeCell s v)
          exact ih rest _ h2
      | output n =>
        rw [run, run]
        exact ih rest _ h2
      | input n =>
        rw [run, run, inpN_congr goSem pythonSem rfl n s]
        exact ih rest _ h2
      | clr =>
        rw [run, run]
        exact ih rest _ h2
      | loop body =>
        have hbody : smallCounts body = true := by
          simp only [smallCountsI] at h1
          exact h1
        rw [run, run]
        by_cases hc : s.tape s.dp ≠ 0
        · rw [if_pos hc, if_pos hc, ih body s hbody]
          cases hres : run pythonSem f body s with
          | none => rfl
          | some s2 =>
            show run goSem f (Instr.loop body :: rest) s2
                = run pythonSem f (Instr.loop body :: rest) s2
            exact ih _ s2 hs0
        · rw [if_neg hc, if_neg hc]
          exact ih rest s h2

/-- C1 counterexample: the balanced source of 256 consecutive increments
followed by an output (`'+' * 256 + '.'`) parses; the generated Python
program emits the single byte 0, but the generated Go and Rust programs
carry the overflowing byte literal 256 and are rejected by their
compilers, producing no output — the outputs are not byte-identical. -/
theorem cross_target_counterexample :
    parseProg [("+", 256), (".", 1)] = some [Instr.inc 256, Instr.output 1] ∧
    outsOf pythonSem 3 [Instr.inc 256, Instr.output 1] 0 [] = some [0] ∧
    outsOf goSem 3 [Instr.inc 256, Instr.output 1] 0 [] = none ∧
    outsOf rustSem 3 [Instr.inc 256, Instr.output 1] 0 [] = none ∧
    ¬ outsOf goSem 3 [Instr.inc 256, Instr.output 1] 0 []
        = outsOf pythonSem 3 [Instr.inc 256, Instr.output 1] 0 [] := by
  have hpy : outsOf pythonSem 3 [Instr.inc 256, Instr.output 1] 0 [] = some [0] := by
    decide
  have hgo : outsOf goSem 3 [Instr.inc 256, Instr.output 1] 0 [] = none := rfl
  refine ⟨rfl, hpy, hgo, rfl, ?_⟩
  rw [hgo, hpy]
  intro h
  exact Option.noConfusion h

/-- C1 amended: for every balanced token sequence, fuel bound and input
byte stream, the C++, C#, Lua and Ruby programs produce output streams
byte-identical to the Python program's for every program, and the Go and
Rust programs do so whenever every increment and decrement count fits in
a byte (so that no emitted count literal overflows). -/
theorem cross_target_equivalence (toks : List Token) (prog : List Instr)
    (hbal : parseProg toks = some prog) (fuel : Nat) (inp : List Nat) :
    outsOf cppSem fuel prog 0 inp = outsOf pythonSem fuel prog 0 inp ∧
    outsOf csharpSem fuel prog 0 inp = outsOf pythonSem fuel prog 0 inp ∧
    outsOf luaSem fuel prog 1 inp = outsOf pythonSem fuel prog 0 inp ∧
    outsOf rubySem fuel prog 0 inp = outsOf pythonSem fuel prog 0 inp ∧
    (smallCounts prog = true →
      outsOf goSem fuel prog 0 inp = outsOf pythonSem fuel prog 0 inp ∧
      outsOf rustSem fuel prog 0 inp = outsOf pythonSem fuel prog 0 inp) := by
  refine ⟨by rw [cppSem_eq_pythonSem], by rw [csharpSem_eq_pythonSem], ?_,
    by rw [rubySem_eq_pythonSem], ?_⟩
  · rw [luaSem_eq_pythonSem, outsOf, outsOf]
    have h0 : st0 1 inp = shiftSt (-1) (st0 0 inp) := by
      simp only [st0, shiftSt]
      congr 1
    rw [h0, run_shift]
    cases run pythonSem fuel prog (st0 0 inp) <;> rfl
  · intro hsmall
    constructor
    · rw [outsOf, outsOf, run_go_python fuel prog (st0 0 inp) hsmall]
    · rw [outsOf, outsOf, rustSem_eq_goSem, run_go_python fuel prog (st0 0 inp) hsmall]

/-- Witness for C1: the balanced program `+[-].` parses, all its counts
fit in a byte, and at fuel 9 on an empty input stream the Lua, Go and
Rust outputs agree with Python's. -/
theorem cross_target_equivalence_witness :
    parseProg [("+", 1), ("[", 1), ("-", 1), ("]", 1), (".", 1)]
      = some [Instr.inc 1, Instr.loop [Instr.dec 1], Instr.output 1] ∧
    smallCounts [Instr.inc 1, Instr.loop [Instr.dec 1], Instr.output 1] = true ∧
    outsOf luaSem 9 [Instr.inc 1, Instr.loop [Instr.dec 1], Instr.output 1] 1 []
      = outsOf pythonSem 9 [Instr.inc 1, Instr.loop [Instr.dec 1], Instr.output 1] 0 [] ∧
    outsOf goSem 9 [Instr.inc 1, Instr.loop [Instr.dec 1], Instr.output 1] 0 []
      = outsOf pythonSem 9 [Instr.inc 1, Instr.loop [Instr.dec 1], Instr.output 1] 0 [] ∧
    outsOf rustSem 9 [Instr.inc 1, Instr.loop [Instr.dec 1], Instr.output 1] 0 []
      = outsOf pythonSem 9 [Instr.inc 1, Instr.loop [Instr.dec 1], Instr.output 1] 0 [] :=
  ⟨rfl, rfl,
   (cross_target_equivalence [("+", 1), ("[", 1), ("-", 1), ("]", 1), (".", 1)]
      [Instr.inc 1, Instr.loop [Instr.dec 1], Instr.output 1] rfl 9 []).2.2.1,
   ((cross_target_equivalence [("+", 1), ("[", 1), ("-", 1), ("]", 1), (".", 1)]
      [Instr.inc 1, Instr.loop [Instr.dec 1], Instr.output 1] rfl 9 []).2.2.2.2 rfl).1,
   ((cross_target_equivalence [("+", 1), ("[", 1), ("-", 1), ("]", 1), (".", 1)]
      [Instr.inc 1, Instr.loop [Instr.dec 1], Instr.output 1] rfl 9 []).2.2.2.2 rfl).2⟩

/-- Witness for C9 at a concrete comma-free token sequence. -/
theorem no_input_no_reader_witness :
    ((emit_go_lines [(">", 2), (".", 1)]).all
        (fun l => !hasSub ("Stdin".toList) l.toList && !hasSub ("getchar".toList) l.toList)
      = true) ∧
    ((emit_cpp_lines [(">", 2), (".", 1)]).all
        (fun l => !hasSub ("cin.get".toList) l.toList) = true) ∧
    ((emit_csharp_lines [(">", 2), (".", 1)]).all
        (fun l => !hasSub ("OpenStandardInput".toList) l.toList
          && !hasSub ("ReadByte".toList) l.toList) = true) ∧
    ((emit_rust_lines [(">", 2), (".", 1)]).all
        (fun l => !hasSub ("stdin".toList) l.toList && !hasSub ("getchar".toList) l.toList)
      = true) :=
  no_input_no_reader [(">", 2), (".", 1)] (by decide)
